import Mathlib

/-!
Verification of the mongoschema object-document mapper core
(src/mongoschema/base.py) against its specification.

The embedding below models the Python runtime values that flow through the
library, the schema data model (MongoField / nested schema dicts / list
fields), the validator, the key codec that escapes characters forbidden in
stored keys, and the CRUD state machine (collection contents, identity cache,
fresh ObjectId supply and object-identity allocation).  Python dictionaries
are modelled as insertion-ordered association lists with unique keys; object
identity (the `is` relation) is modelled by an allocation tag drawn from a
counter in the state.  Mutation in place is modelled by explicit state
passing; a raised exception is an `Except.error` value carrying the
exception class and message shape used by the source.
-/

namespace Mongoschema

/-- Runtime values handled by the library: scalars, ObjectIds (modelled by a
natural number), lists, dictionaries (insertion-ordered association lists),
and MongoDoc wrapper instances passed as values (carrying their allocation
tag and the ObjectId value of their `id` field).  Floats only occur in the
source through `_fix_int_float`; the integral floats relevant there are
modelled by an integer payload. -/
inductive Val where
  | vNone : Val
  | vBool : Bool → Val
  | vInt : Int → Val
  | vFloat : Int → Val
  | vStr : String → Val
  | vObjId : Nat → Val
  | vList : List Val → Val
  | vDict : List (String × Val) → Val
  | vDocInst : Nat → Nat → Val

mutual

/-- Python equality (the == operator) on the modelled values, used by
`in` tests on lists and by dictionary key lookup. -/
def Val.beq : Val → Val → Bool
  | .vNone, .vNone => true
  | .vBool a, .vBool b => a = b
  | .vInt a, .vInt b => a = b
  | .vFloat a, .vFloat b => a = b
  | .vStr a, .vStr b => a = b
  | .vObjId a, .vObjId b => a = b
  | .vList a, .vList b => Val.beqList a b
  | .vDict a, .vDict b => Val.beqDict a b
  | .vDocInst t i, .vDocInst t' i' => t = t' && i = i'
  | _, _ => false

def Val.beqList : List Val → List Val → Bool
  | [], [] => true
  | a :: as, b :: bs => Val.beq a b && Val.beqList as bs
  | _, _ => false

def Val.beqDict : List (String × Val) → List (String × Val) → Bool
  | [], [] => true
  | (k, a) :: as, (k', b) :: bs => k = k' && Val.beq a b && Val.beqDict as bs
  | _, _ => false

end

mutual

theorem Val.beq_iff : ∀ a b : Val, Val.beq a b = true ↔ a = b
  | .vNone, b => by cases b <;> simp [Val.beq]
  | .vBool a, b => by cases b <;> simp [Val.beq]
  | .vInt a, b => by cases b <;> simp [Val.beq]
  | .vFloat a, b => by cases b <;> simp [Val.beq]
  | .vStr a, b => by cases b <;> simp [Val.beq]
  | .vObjId a, b => by cases b <;> simp [Val.beq]
  | .vList a, b => by
    cases b <;> simp [Val.beq]
    exact Val.beqList_iff a _
  | .vDict a, b => by
    cases b <;> simp [Val.beq]
    exact Val.beqDict_iff a _
  | .vDocInst t i, b => by cases b <;> simp [Val.beq]

theorem Val.beqList_iff : ∀ a b : List Val, Val.beqList a b = true ↔ a = b
  | [], b => by cases b <;> simp [Val.beqList]
  | a :: as, [] => by simp [Val.beqList]
  | a :: as, b :: bs => by
    simp [Val.beqList, Val.beq_iff a b, Val.beqList_iff as bs]

theorem Val.beqDict_iff :
    ∀ a b : List (String × Val), Val.beqDict a b = true ↔ a = b
  | [], b => by cases b <;> simp [Val.beqDict]
  | a :: as, [] => by simp [Val.beqDict]
  | (k, a) :: as, (k', b) :: bs => by
    simp [Val.beqDict, Val.beq_iff a b, Val.beqDict_iff as bs, and_assoc]

end

instance : DecidableEq Val := fun a b =>
  decidable_of_iff (Val.beq a b = true) (Val.beq_iff a b)

/-- Association-list lookup, first binding wins (Python dict access). -/
def getA {α β : Type} [DecidableEq α] (d : List (α × β)) (k : α) : Option β :=
  match d with
  | [] => none
  | (k', v) :: rest => if k' = k then some v else getA rest k

/-- Python `key in dict`. -/
def memA {α β : Type} [DecidableEq α] (d : List (α × β)) (k : α) : Bool :=
  (getA d k).isSome

/-- Python `dict[key] = value`: replaces the binding in place when the key is
present, otherwise appends it (insertion order). -/
def setA {α β : Type} [DecidableEq α] (d : List (α × β)) (k : α) (v : β) :
    List (α × β) :=
  match d with
  | [] => [(k, v)]
  | (k', v') :: rest =>
    if k' = k then (k', v) :: rest else (k', v') :: setA rest k v

/-- Python `del dict[key]` (removes the first binding). -/
def delA {α β : Type} [DecidableEq α] (d : List (α × β)) (k : α) :
    List (α × β) :=
  match d with
  | [] => []
  | (k', v') :: rest => if k' = k then rest else (k', v') :: delA rest k

/-! ### Key codec (DICT_KEY_REPLACEMENTS, _fix_single_dict_key) -/

/-- Tests whether `pat` is a prefix of `s` (character lists). -/
def startsWith : List Char → List Char → Bool
  | _, [] => true
  | [], _ :: _ => false
  | c :: cs, p :: ps => c = p && startsWith cs ps

/-- Tests whether `pat` occurs as a contiguous substring of `s`. -/
def containsSub : List Char → List Char → Bool
  | [], pat => startsWith [] pat
  | c :: rest, pat => startsWith (c :: rest) pat || containsSub rest pat

/-- Fuel-driven core of the replacement scan; the fuel dominates the length
of the string, which strictly decreases at every step, so the zero-fuel
branch with a non-empty string is never reached when started with fuel equal
to the string length. -/
def pyReplaceF : Nat → List Char → Char → List Char → List Char → List Char
  | _, [], _, _, _ => []
  | 0, c :: rest, _, _, _ => c :: rest
  | fuel + 1, c :: rest, p0, prest, rep =>
    if c = p0 && startsWith rest prest then
      rep ++ pyReplaceF fuel (rest.drop prest.length) p0 prest rep
    else
      c :: pyReplaceF fuel rest p0 prest rep

/-- Python `str.replace(old, new)`: replaces every non-overlapping occurrence
of the pattern, scanning left to right.  The pattern is passed as head `p0`
and tail `prest` so it is syntactically non-empty (all patterns used by the
source are non-empty literals). -/
def pyReplace (s : List Char) (p0 : Char) (prest : List Char)
    (rep : List Char) : List Char :=
  pyReplaceF s.length s p0 prest rep

/-- The escape token for the dollar character, from DICT_KEY_REPLACEMENTS. -/
def dollarTok : List Char := ['&', 'd', 'o', 'l', 'l', 'a', 'r', ';']

/-- The escape token for the period character, from DICT_KEY_REPLACEMENTS. -/
def periodTok : List Char := ['&', 'p', 'e', 'r', 'i', 'o', 'd', ';']

/-- MongoSchema._fix_single_dict_key with fordb=True: applies the ordered
substitutions dollar to dollar-token, then period to period-token. -/
def fix_single_dict_key_chars (k : List Char) : List Char :=
  pyReplace (pyReplace k '$' [] dollarTok) '.' [] periodTok

/-- MongoSchema._fix_single_dict_key with fordb=False: applies the reverse
substitutions in the same pair order: dollar-token back to dollar, then
period-token back to period. -/
def unfix_single_dict_key_chars (k : List Char) : List Char :=
  pyReplace (pyReplace k '&' dollarTok.tail ['$']) '&' periodTok.tail ['.']

/-- String-level encode direction of the key codec. -/
def fix_single_dict_key (k : String) : String :=
  ⟨fix_single_dict_key_chars k.data⟩

/-- String-level decode direction of the key codec. -/
def unfix_single_dict_key (k : String) : String :=
  ⟨unfix_single_dict_key_chars k.data⟩

/-- One-character view of the composed encode direction: the dollar
substitution followed by the period substitution acts independently on each
character of the key. -/
def encChar (c : Char) : List Char :=
  if c = '$' then dollarTok else if c = '.' then periodTok else [c]

/-- One-character view of the period substitution alone. -/
def encPeriod (c : Char) : List Char :=
  if c = '.' then periodTok else [c]

/-- One-character view of the dollar substitution alone. -/
def encDollar (c : Char) : List Char :=
  if c = '$' then dollarTok else [c]

/-- A key is codec-safe when it does not already contain either escape
token as a substring; it may freely contain the dollar and period
characters themselves. -/
def validKeyChars (k : List Char) : Bool :=
  !containsSub k dollarTok && !containsSub k periodTok

/-- String-level key safety. -/
def validKey (k : String) : Bool := validKeyChars k.data

mutual

/-- MongoSchema._fix_dict_keys: recursively rewrites every dictionary key in
the encode direction, descending into nested dictionaries and into list
elements; values that are neither dictionaries nor lists are returned
unchanged (string values are never rewritten). -/
def fix_dict_keys : Val → Val
  | .vDict d => .vDict (fix_dict_keys_entries d)
  | .vList l => .vList (fix_dict_keys_elems l)
  | v => v

def fix_dict_keys_entries : List (String × Val) → List (String × Val)
  | [] => []
  | (k, v) :: rest =>
    (fix_single_dict_key k, fix_dict_keys v) :: fix_dict_keys_entries rest

def fix_dict_keys_elems : List Val → List Val
  | [] => []
  | v :: rest => fix_dict_keys v :: fix_dict_keys_elems rest

end

mutual

/-- MongoSchema._unfix_dict_keys: recursively rewrites every dictionary key
in the decode direction, descending into nested dictionaries and into list
elements. -/
def unfix_dict_keys : Val → Val
  | .vDict d => .vDict (unfix_dict_keys_entries d)
  | .vList l => .vList (unfix_dict_keys_elems l)
  | v => v

def unfix_dict_keys_entries : List (String × Val) → List (String × Val)
  | [] => []
  | (k, v) :: rest =>
    (unfix_single_dict_key k, unfix_dict_keys v) :: unfix_dict_keys_entries rest

def unfix_dict_keys_elems : List Val → List Val
  | [] => []
  | v :: rest => unfix_dict_keys v :: unfix_dict_keys_elems rest

end

mutual

/-- A nested structure is codec-safe when every dictionary key anywhere in
it avoids the two escape tokens (the keys may contain the raw dollar and
period characters that the codec escapes). -/
def validKeysV : Val → Bool
  | .vDict d => validKeysEntries d
  | .vList l => validKeysElems l
  | _ => true

def validKeysEntries : List (String × Val) → Bool
  | [] => true
  | (k, v) :: rest => validKey k && validKeysV v && validKeysEntries rest

def validKeysElems : List Val → Bool
  | [] => true
  | v :: rest => validKeysV v && validKeysElems rest

end

/-! ### Schema data model and validator -/

/-- A Python record (keyword arguments, a stored document, a wrapper record):
a dictionary from string keys to values. -/
abbrev Doc := List (String × Val)

/-- Python exceptions raised by the library paths modelled here, carrying the
exception class and (for the classes the claims inspect) the shape of the
message built by the source. -/
inductive PyErr where
  | validationError : String → PyErr
  | requiredNotFound : String → PyErr
  | keyError : String → PyErr
  | valueError : String → PyErr
  | indexError : PyErr
  | attributeError : PyErr
  | typeError : PyErr
deriving DecidableEq

/-- The runtime types a MongoField can declare: built-in scalar and container
types, plus an Entity Type (a MongoSchema subclass, identified by name),
which makes the field a reference field. -/
inductive PyType where
  | tStr
  | tInt
  | tFloat
  | tBool
  | tDict
  | tList
  | tObjectId
  | tSchemaRef : String → PyType
deriving DecidableEq

/-- Display name used in error messages. -/
def PyType.name : PyType → String
  | .tStr => "str"
  | .tInt => "int"
  | .tFloat => "float"
  | .tBool => "bool"
  | .tDict => "dict"
  | .tList => "list"
  | .tObjectId => "ObjectId"
  | .tSchemaRef n => n

/-- Display name of the runtime type of a value, used in error messages. -/
def Val.typeName : Val → String
  | .vNone => "NoneType"
  | .vBool _ => "bool"
  | .vInt _ => "int"
  | .vFloat _ => "float"
  | .vStr _ => "str"
  | .vObjId _ => "ObjectId"
  | .vList _ => "list"
  | .vDict _ => "dict"
  | .vDocInst _ _ => "MongoDoc"

/-- Python isinstance for the modelled values and declared types (bool is a
subclass of int in Python). -/
def isinst : Val → PyType → Bool
  | .vStr _, .tStr => true
  | .vBool _, .tBool => true
  | .vBool _, .tInt => true
  | .vInt _, .tInt => true
  | .vFloat _, .tFloat => true
  | .vDict _, .tDict => true
  | .vList _, .tList => true
  | .vObjId _, .tObjectId => true
  | _, _ => false

/-- MongoField: one schema field descriptor.  NoDefault is modelled by
`default = none`; a default factory is modelled by the value it produces
(`default_func = some v`); the validation regular expression is modelled by
the predicate it decides on strings. -/
structure MongoField where
  type : PyType
  default : Option Val := none
  default_func : Option Val := none
  required : Bool := true
  allowed_vals : Option (List Val) := none
  validate_regexp : Option (String → Bool) := none

/-- MongoField.filldefault: the factory wins when present, otherwise the
constant default is returned. -/
def MongoField.filldefault (mf : MongoField) : Val :=
  match mf.default_func with
  | some v => v
  | none => mf.default.getD .vNone

/-- MongoField.has_default: true exactly when a constant default was given;
note that a field carrying only a default factory reports False here. -/
def MongoField.has_default (mf : MongoField) : Bool := mf.default.isSome

/-- One value of a schema dictionary: a MongoField, a nested schema
dictionary, or a list form whose single element describes the element type
(the source only supports MongoField elements in the list form). -/
inductive SchemaItem where
  | fld : MongoField → SchemaItem
  | sub : List (String × SchemaItem) → SchemaItem
  | lst : List MongoField → SchemaItem

/-- A schema: a dictionary from field name to schema item. -/
abbrev Schema := List (String × SchemaItem)

/-- MongoSchema._check_entry_type: a reference-typed field accepts exactly
the store id type (ObjectId); any other declared type is checked with
isinstance; afterwards a non-empty allowed_vals set is checked for
membership (Python equality). -/
def check_entry_type (key : String) (entry : Val) (mf : MongoField) :
    Except PyErr Unit :=
  let typeCheck : Except PyErr Unit :=
    match mf.type with
    | .tSchemaRef _ =>
      match entry with
      | .vObjId _ => .ok ()
      | _ => .error (.validationError ("Expected an ObjectId got " ++ entry.typeName))
    | t =>
      if isinst entry t then .ok ()
      else .error (.validationError
        (key ++ ": Expected type " ++ t.name ++ ", got " ++ entry.typeName))
  match typeCheck with
  | .error e => .error e
  | .ok () =>
    match mf.allowed_vals with
    | some l =>
      if !l.isEmpty && !(l.any (fun x => x = entry)) then
        .error (.validationError (key ++ ": value not in allowed_vals"))
      else .ok ()
    | none => .ok ()

/-- MongoSchema._validate_mongo_field.  A required field must be present; an
absent optional field is accepted without further checks; a present value is
type-checked and then checked against the optional regular expression.  The
default-filling line of the source (line 459) is unreachable because both
missing-key cases are already handled, so it has no counterpart here. -/
def validate_mongo_field (key : String) (doc : Doc) (mf : MongoField) :
    Except PyErr Unit :=
  if mf.required && !(memA doc key) then .error (.requiredNotFound key)
  else if !mf.required && !(memA doc key) then .ok ()
  else
    match getA doc key with
    | none => .error (.keyError key)
    | some entry =>
      match check_entry_type key entry mf with
      | .error e => .error e
      | .ok () =>
        match mf.validate_regexp with
        | none => .ok ()
        | some re =>
          match entry with
          | .vStr s =>
            if re s then .ok ()
            else .error (.validationError
              (s ++ " does not match pattern for key " ++ key))
          | _ => .error .typeError

/-- MongoSchema._basic_schema_validation: every key of the record must be a
schema key. -/
def basic_schema_validation (schema : Schema) : Doc → Except PyErr Unit
  | [] => .ok ()
  | (k, _) :: rest =>
    if memA schema k then basic_schema_validation schema rest
    else .error (.validationError ("Unknown key " ++ k))

/-- The closed-world key check at the top of MongoSchema._validate (same
check as basic_schema_validation, different message). -/
def validate_unknown_check (schema : Schema) : Doc → Except PyErr Unit
  | [] => .ok ()
  | (k, _) :: rest =>
    if memA schema k then validate_unknown_check schema rest
    else .error (.validationError ("Could not find " ++ k ++ " in schema"))

/-- Element loop of the list-field branch of MongoSchema._validate. -/
def check_entries (key : String) : List Val → MongoField → Except PyErr Unit
  | [], _ => .ok ()
  | v :: rest, mf =>
    match check_entry_type key v mf with
    | .error e => .error e
    | .ok () => check_entries key rest mf

mutual

/-- Field loop of MongoSchema._validate: one schema item after another, the
first error wins. -/
def validate_items : Schema → Doc → Except PyErr Unit
  | [], _ => .ok ()
  | (key, item) :: rest, doc =>
    match validate_item key item doc with
    | .error e => .error e
    | .ok () => validate_items rest doc

/-- One schema item of MongoSchema._validate: a MongoField is checked with
_validate_mongo_field; a nested schema recurses into the corresponding
sub-dictionary (a missing key raises KeyError; a non-dictionary value under
a nested-schema key is an off-schema shape on which the Python source fails
in assorted ways, modelled uniformly by typeError); the list form insists
on exactly one element descriptor and then type-checks every list
element. -/
def validate_item (key : String) (item : SchemaItem) (doc : Doc) :
    Except PyErr Unit :=
  match item with
  | .fld mf => validate_mongo_field key doc mf
  | .sub s =>
    match getA doc key with
    | none => .error (.keyError key)
    | some (.vDict d) =>
      match validate_unknown_check s d with
      | .error e => .error e
      | .ok () => validate_items s d
    | some _ => .error .typeError
  | .lst mfs =>
    match mfs with
    | [mf0] =>
      match getA doc key with
      | none => .error (.keyError key)
      | some (.vList l) => check_entries key l mf0
      | some _ => .error .typeError
    | _ => .error (.validationError "dont know what to do with > 1")

end

/-- MongoSchema._validate: the closed-world key check followed by the field
loop. -/
def validate (schema : Schema) (doc : Doc) : Except PyErr Unit :=
  match validate_unknown_check schema doc with
  | .error e => .error e
  | .ok () => validate_items schema doc

mutual

/-- MongoSchema._fill_defaults: one schema item after another, threading the
record through. -/
def fill_defaults : Schema → Doc → Except PyErr Doc
  | [], doc => .ok doc
  | (key, item) :: rest, doc =>
    match fill_defaults_item key item doc with
    | .error e => .error e
    | .ok doc' => fill_defaults rest doc'

/-- One schema item of MongoSchema._fill_defaults: a nested schema creates an
empty sub-dictionary when absent and recurses into it; a list item fills an
empty list when absent; a MongoField fills its default exactly when the key
is absent and has_default holds (so a factory-only field is never filled
here).  A present non-dictionary value under a nested-schema key is an
off-schema shape on which the Python source fails once a non-empty nested
schema probes it; it is modelled uniformly by typeError. -/
def fill_defaults_item (key : String) (item : SchemaItem) (doc : Doc) :
    Except PyErr Doc :=
  match item with
  | .fld mf =>
    .ok (if !(memA doc key) && mf.has_default then
      setA doc key mf.filldefault else doc)
  | .sub s =>
    match getA doc key with
    | none =>
      match fill_defaults s [] with
      | .error e => .error e
      | .ok d' => .ok (setA doc key (.vDict d'))
    | some (.vDict d) =>
      match fill_defaults s d with
      | .error e => .error e
      | .ok d' => .ok (setA doc key (.vDict d'))
    | some _ => if s.isEmpty then .ok doc else .error .typeError
  | .lst _ => .ok (if memA doc key then doc else setA doc key (.vList []))

end

/-- The element loop of the list branch of MongoSchema._deref_if_needed:
each element must be a MongoDoc instance whose id replaces it (any other
element lacks the id attribute and raises AttributeError). -/
def deref_list_ids : List Val → Except PyErr (List Val)
  | [] => .ok []
  | .vDocInst _ i :: rest =>
    match deref_list_ids rest with
    | .ok l => .ok (.vObjId i :: l)
    | .error e => .error e
  | _ :: _ => .error .attributeError

/-- MongoSchema._deref_if_needed: a reference-typed list field maps every
element to its id; other list fields and plain dictionaries pass through; a
scalar reference field rejects None with ValueError and otherwise replaces
the MongoDoc instance by its id (a value without an id attribute raises
AttributeError); all other fields pass through. -/
def deref_if_needed (item : SchemaItem) (value : Val) : Except PyErr Val :=
  match item with
  | .lst [] => .error .indexError
  | .lst (mf0 :: _) =>
    match mf0.type with
    | .tSchemaRef _ =>
      match value with
      | .vList l =>
        match deref_list_ids l with
        | .ok l' => .ok (.vList l')
        | .error e => .error e
      | _ => .error .typeError
    | _ => .ok value
  | .sub _ => .ok value
  | .fld mf =>
    match mf.type with
    | .tSchemaRef _ =>
      match value with
      | .vNone => .error (.valueError "Expected instance, instead got None")
      | .vDocInst _ i => .ok (.vObjId i)
      | _ => .error .attributeError
    | _ => .ok value

/-- MongoSchema._fix_references: every record key except id is passed
through _deref_if_needed with its schema item (an unknown key raises
KeyError on the schema lookup). -/
def fix_references (schema : Schema) : Doc → Except PyErr Doc
  | [] => .ok []
  | (k, v) :: rest =>
    if k = "id" then
      match fix_references schema rest with
      | .ok rest' => .ok ((k, v) :: rest')
      | .error e => .error e
    else
      match getA schema k with
      | none => .error (.keyError k)
      | some item =>
        match deref_if_needed item v with
        | .error e => .error e
        | .ok v' =>
          match fix_references schema rest with
          | .ok rest' => .ok ((k, v') :: rest')
          | .error e => .error e

/-- MongoSchema._fordb_fix_id.  Outside query translation a missing id draws
a fresh ObjectId from the id field default factory (the factory is the
ObjectId constructor, modelled by the fresh counter threaded through the
state); a present id is passed through the ObjectId constructor (an equal
ObjectId comes back; hex-string parsing is not modelled, any non-ObjectId
raises InvalidId, a ValueError subclass in bson) and moved to the storage
key. -/
def fordb_fix_id (doc : Doc) (forquery : Bool) (fresh : Nat) :
    Except PyErr (Doc × Nat) :=
  if !(memA doc "id") && !forquery then
    .ok (setA doc "_id" (.vObjId fresh), fresh + 1)
  else if memA doc "id" then
    match getA doc "id" with
    | some (.vObjId i) => .ok (delA (setA doc "_id" (.vObjId i)) "id", fresh)
    | _ => .error (.valueError "InvalidId")
  else .ok (doc, fresh)

/-- MongoSchema._fromdb_fix_id: the storage id key is renamed to the logical
id key. -/
def fromdb_fix_id (doc : Doc) : Except PyErr Doc :=
  match getA doc "_id" with
  | none => .error (.keyError "_id")
  | some v => .ok (delA (setA doc "id" v) "_id")

/-- MongoSchema._fix_int_float: a float stored under an int-typed field is
truncated to int on read. -/
def fix_int_float : Schema → Doc → Doc
  | [], doc => doc
  | (key, .fld mf) :: rest, doc =>
    if mf.type = .tInt then
      match getA doc key with
      | some (.vFloat m) => fix_int_float rest (setA doc key (.vInt m))
      | _ => fix_int_float rest doc
    else fix_int_float rest doc
  | (_, _) :: rest, doc => fix_int_float rest doc

/-- MongoSchema._fordb: id translation followed by key encoding over the
whole record. -/
def fordb (doc : Doc) (fresh : Nat) : Except PyErr (Doc × Nat) :=
  match fordb_fix_id doc false fresh with
  | .error e => .error e
  | .ok (doc', fresh') => .ok (fix_dict_keys_entries doc', fresh')

/-- Record normalization of MongoSchema._fromdb: id renaming, schema
defaulting, int coercion, key decoding (wrapper construction is modelled at
the call sites, which allocate the identity tag). -/
def fromdb_doc (schema : Schema) (doc : Doc) : Except PyErr Doc :=
  match fromdb_fix_id doc with
  | .error e => .error e
  | .ok doc' =>
    match fill_defaults schema doc' with
    | .error e => .error e
    | .ok doc'' => .ok (unfix_dict_keys_entries (fix_int_float schema doc''))

/-! ### CRUD state machine -/

/-- A MongoDoc wrapper: its object identity (the Python `is` relation,
modelled by an allocation tag) and its in-memory record. -/
structure Wrapper where
  tag : Nat
  doc : Doc
deriving DecidableEq

/-- The id attribute of a wrapper (MongoDoc.__getattr__ routed through the
implicit id field).  Wrappers built by the library always carry the id key;
for an absent id the optional-field path returns the NoValue sentinel,
modelled by vNone. -/
def Wrapper.idVal (w : Wrapper) : Val := (getA w.doc "id").getD .vNone

/-- The state one Entity Type operates on: stored collection documents, the
identity cache (keyed by the cached wrapper id values), the cache flag, the
fresh-ObjectId supply of the id default factory, and the allocation counter
that models object identity. -/
structure DBState where
  db : List Doc
  cache : List (Val × Wrapper)
  cache_enabled : Bool
  fresh : Nat
  next_tag : Nat
deriving DecidableEq

/-- Equality matching of one stored document against a flat query document
(the collection.find_one interface assumed in the spec). -/
def doc_matches (r : Doc) (q : Doc) : Bool :=
  q.all (fun kv =>
    match getA r kv.1 with
    | some v => v = kv.2
    | none => false)

/-- collection.find_one: the first stored document matching the query. -/
def find_one : List Doc → Doc → Option Doc
  | [], _ => none
  | r :: rest, q => if doc_matches r q then some r else find_one rest q

/-- Application of a storage dollar-set document to one stored document. -/
def apply_set (r : Doc) : Doc → Doc
  | [] => r
  | (k, v) :: rest => apply_set (setA r k v) rest

/-- collection.update with a dollar-set document: rewrites the first
document whose storage id equals the target (pymongo single-document
update). -/
def db_update_one : List Doc → Val → Doc → List Doc
  | [], _, _ => []
  | r :: rest, docid, setdoc =>
    match getA r "_id" with
    | some v =>
      if v = docid then apply_set r setdoc :: rest
      else r :: db_update_one rest docid setdoc
    | none => r :: db_update_one rest docid setdoc

/-- MongoSchema.add_to_cache: refuses when caching is disabled, otherwise
stores the wrapper under its id attribute. -/
def add_to_cache (st : DBState) (w : Wrapper) : Except PyErr DBState :=
  if !st.cache_enabled then .error (.valueError "Cannot cache when disabled")
  else .ok { st with cache := setA st.cache w.idVal w }

/-- MongoSchema._writedoc: validates a deep copy of the record, translates
it to storage form, performs the insert or the single-document update, and
returns the record normalized back through the _fromdb path.  Validation
precedes every storage operation. -/
def writedoc (schema : Schema) (doc : Doc) (insert_or_save : String)
    (st : DBState) : (Except PyErr Doc) × DBState :=
  match validate schema doc with
  | .error e => (.error e, st)
  | .ok () =>
    match fordb doc st.fresh with
    | .error e => (.error e, st)
    | .ok (doc', fresh') =>
      let st1 := { st with fresh := fresh' }
      if insert_or_save = "insert" then
        let st2 := { st1 with db := st1.db ++ [doc'] }
        match fromdb_doc schema doc' with
        | .error e => (.error e, st2)
        | .ok doc'' => (.ok doc'', st2)
      else if insert_or_save = "update" then
        match getA doc' "_id" with
        | none => (.error (.keyError "_id"), st1)
        | some docid =>
          let setdoc := delA doc' "_id"
          let st2 := { st1 with db := db_update_one st1.db docid setdoc }
          match fromdb_doc schema (setA setdoc "_id" docid) with
          | .error e => (.error e, st2)
          | .ok doc'' => (.ok doc'', st2)
      else (.error (.valueError "expected insert or save"), st1)

/-- MongoSchema.create: fill defaults, reject unknown keys, convert entity
instances to reference ids, write through _writedoc, wrap the normalized
record in a fresh wrapper, and register it in the identity cache when
caching is enabled. -/
def create (schema : Schema) (doc : Doc) (st : DBState) :
    (Except PyErr Wrapper) × DBState :=
  match fill_defaults schema doc with
  | .error e => (.error e, st)
  | .ok doc1 =>
    match basic_schema_validation schema doc1 with
    | .error e => (.error e, st)
    | .ok () =>
      match fix_references schema doc1 with
      | .error e => (.error e, st)
      | .ok doc2 =>
        match writedoc schema doc2 "insert" st with
        | (.error e, st') => (.error e, st')
        | (.ok doc3, st') =>
          let w : Wrapper := ⟨st'.next_tag, doc3⟩
          let st2 := { st' with next_tag := st'.next_tag + 1 }
          if st2.cache_enabled then
            match add_to_cache st2 w with
            | .ok st3 => (.ok w, st3)
            | .error e => (.error e, st2)
          else (.ok w, st2)

/-- MongoSchema._mongodoc_to_id: MongoDoc instances appearing as query
values are replaced by their ids. -/
def mongodoc_to_id (q : Doc) : Doc :=
  q.map (fun kv =>
    (kv.1, match kv.2 with
           | .vDocInst _ i => .vObjId i
           | v => v))

/-- MongoSchema.get: after query-value translation, a query whose id value
is a key of the identity cache is answered from the cache without touching
storage; otherwise the id key is translated to storage form, find_one runs,
a missing document yields none, and a found document is either answered by
the wrapper already cached under its storage id or normalized, freshly
wrapped, and registered in the cache.  With caching disabled every found
document is normalized into a fresh wrapper and the cache is never read or
written. -/
def get (schema : Schema) (q : Doc) (st : DBState) :
    (Except PyErr (Option Wrapper)) × DBState :=
  match (if st.cache_enabled then
          match getA (mongodoc_to_id q) "id" with
          | some idv => getA st.cache idv
          | none => none
         else none) with
  | some w => (.ok (some w), st)
  | none =>
    match fordb_fix_id (mongodoc_to_id q) true st.fresh with
    | .error e => (.error e, st)
    | .ok (q2, _) =>
      match find_one st.db q2 with
      | none => (.ok none, st)
      | some r =>
        if st.cache_enabled then
          match getA r "_id" with
          | none => (.error (.keyError "_id"), st)
          | some rid =>
            match getA st.cache rid with
            | some w => (.ok (some w), st)
            | none =>
              match fromdb_doc schema r with
              | .error e => (.error e, st)
              | .ok doc' =>
                match add_to_cache { st with next_tag := st.next_tag + 1 }
                    ⟨st.next_tag, doc'⟩ with
                | .ok st2 => (.ok (some ⟨st.next_tag, doc'⟩), st2)
                | .error e => (.error e, { st with next_tag := st.next_tag + 1 })
        else
          match fromdb_doc schema r with
          | .error e => (.error e, st)
          | .ok doc' =>
            (.ok (some ⟨st.next_tag, doc'⟩),
             { st with next_tag := st.next_tag + 1 })

/-- MongoDoc.save: writes the wrapper record through _writedoc in update
mode and returns the same wrapper; the record returned by _writedoc is
discarded (the source validates and writes a deep copy, so the wrapper
record is not modified by save itself). -/
def save (schema : Schema) (w : Wrapper) (st : DBState) :
    (Except PyErr Wrapper) × DBState :=
  match writedoc schema w.doc "update" st with
  | (.error e, st') => (.error e, st')
  | (.ok _, st') => (.ok w, st')

/-- Assignment loop of MongoDoc.update: each key is looked up in the schema
(KeyError on an unknown key) and the value is written into the wrapper
record in place, before any validation happens. -/
def apply_update_fields (schema : Schema) (doc raw : Doc) :
    (Except PyErr Unit) × Doc :=
  match raw with
  | [] => (.ok (), doc)
  | (k, v) :: rest =>
    match getA schema k with
    | none => (.error (.keyError k), doc)
    | some _ => apply_update_fields schema (setA doc k v) rest

/-- MongoDoc.update: applies the raw assignments to the in-memory record,
then calls save.  The returned triple carries the call result, the wrapper
as it exists after the call (same tag: the same object, possibly with a
mutated record), and the new storage state. -/
def mongodoc_update (schema : Schema) (w : Wrapper) (raw : Doc)
    (st : DBState) : (Except PyErr Wrapper) × Wrapper × DBState :=
  match apply_update_fields schema w.doc raw with
  | (.error e, doc') => (.error e, ⟨w.tag, doc'⟩, st)
  | (.ok (), doc') =>
    let w' : Wrapper := ⟨w.tag, doc'⟩
    match save schema w' st with
    | (.error e, st') => (.error e, w', st')
    | (.ok _, st') => (.ok w', w', st')

/-! ### Reference list proxy (MongoDocRefList) -/

/-- Removal of the first element satisfying the predicate, as Python
list.remove does; none when no element matches. -/
def remove_first {α : Type} (p : α → Bool) : List α → Option (List α)
  | [] => none
  | x :: rest =>
    if p x then some rest else (remove_first p rest).map (x :: ·)

/-- MongoDocRefList.append: appends the id to the backing id sequence and
the wrapper to the proxy, both at the last position. -/
def reflist_append (deref : List Wrapper) (reflist : List Val)
    (obj : Wrapper) : List Wrapper × List Val :=
  (deref ++ [obj], reflist ++ [obj.idVal])

/-- MongoDocRefList.remove: removes the first occurrence of the id from the
backing sequence, then the first wrapper equal to the argument (MongoDoc
equality compares ids) from the proxy; a missing element raises ValueError
after the backing sequence was already modified, mirroring the source
order. -/
def reflist_remove (deref : List Wrapper) (reflist : List Val)
    (obj : Wrapper) : (Except PyErr Unit) × List Wrapper × List Val :=
  match remove_first (fun v => v = obj.idVal) reflist with
  | none => (.error (.valueError "list.remove(x): x not in list"), deref, reflist)
  | some reflist' =>
    match remove_first (fun w => w.idVal = obj.idVal) deref with
    | none => (.error (.valueError "list.remove(x): x not in list"), deref, reflist')
    | some deref' => (.ok (), deref', reflist')

/-- MongoDocRefList.pop: removes position i from the backing id sequence and
from the proxy (an out-of-range index raises IndexError; the negative-index
form of Python is not modelled). -/
def reflist_pop (deref : List Wrapper) (reflist : List Val) (i : Nat) :
    (Except PyErr Unit) × List Wrapper × List Val :=
  if i < reflist.length then
    if i < deref.length then
      (.ok (), deref.eraseIdx i, reflist.eraseIdx i)
    else (.error .indexError, deref, reflist.eraseIdx i)
  else (.error .indexError, deref, reflist)

/-- The lock-step relation between a proxy and its backing id sequence: same
length and the id of the wrapper at every position equals the backing id at
that position. -/
def lockstep (deref : List Wrapper) (reflist : List Val) : Prop :=
  reflist = deref.map Wrapper.idVal

/-- The prefix of MongoSchema.create that runs before the storage insert:
default filling, the unknown-key check, reference conversion, and the full
validation performed at the top of _writedoc.  An error of create in this
phase is exactly an error raised before any storage write. -/
def create_validation_phase (schema : Schema) (doc : Doc) : Except PyErr Doc :=
  match fill_defaults schema doc with
  | .error e => .error e
  | .ok doc1 =>
    match basic_schema_validation schema doc1 with
    | .error e => .error e
    | .ok () =>
      match fix_references schema doc1 with
      | .error e => .error e
      | .ok doc2 =>
        match validate schema doc2 with
        | .error e => .error e
        | .ok () => .ok doc2

/-! ### Theorems -/

theorem getA_setA_self {α β : Type} [DecidableEq α] (d : List (α × β)) (k : α) (v : β) :
    getA (setA d k v) k = some v := by
  induction d with
  | nil => simp [getA, setA]
  | cons hd tl ih =>
    obtain ⟨k', v'⟩ := hd
    by_cases h : k' = k <;> simp [getA, setA, h, ih]

theorem getA_setA_ne {α β : Type} [DecidableEq α] (d : List (α × β)) (k k' : α)
    (v : β) (h : k ≠ k') : getA (setA d k v) k' = getA d k' := by
  induction d with
  | nil => simp [getA, setA, h]
  | cons hd tl ih =>
    obtain ⟨k₀, v₀⟩ := hd
    by_cases h₀ : k₀ = k
    · subst h₀; simp [getA, setA, h]
    · simp [getA, setA, h₀, ih]

theorem getA_delA_ne {α β : Type} [DecidableEq α] (d : List (α × β)) (k k' : α)
    (h : k ≠ k') : getA (delA d k) k' = getA d k' := by
  induction d with
  | nil => simp [getA, delA]
  | cons hd tl ih =>
    obtain ⟨k₀, v₀⟩ := hd
    by_cases h₀ : k₀ = k
    · subst h₀; simp [getA, delA, h]
    · simp [getA, delA, h₀, ih]

theorem pyReplaceF_congr :
    ∀ (fuel : Nat) (s : List Char) (fuel2 : Nat) (p0 : Char)
      (prest rep : List Char), s.length ≤ fuel → s.length ≤ fuel2 →
      pyReplaceF fuel s p0 prest rep = pyReplaceF fuel2 s p0 prest rep := by
  intro fuel
  induction fuel with
  | zero =>
    intro s fuel2 p0 prest rep h1 h2
    have hs : s = [] := List.length_eq_zero.mp (Nat.le_zero.mp h1)
    subst hs
    cases fuel2 <;> rfl
  | succ n ih =>
    intro s fuel2 p0 prest rep h1 h2
    cases s with
    | nil => cases fuel2 <;> rfl
    | cons c rest =>
      cases fuel2 with
      | zero => simp at h2
      | succ m =>
        simp only [List.length_cons, Nat.add_le_add_iff_right] at h1 h2
        by_cases hcond : (c = p0 && startsWith rest prest) = true
        · simp only [pyReplaceF, hcond, if_true]
          have hd1 : (rest.drop prest.length).length ≤ n :=
            Nat.le_trans (by simp [List.length_drop]) h1
          have hd2 : (rest.drop prest.length).length ≤ m :=
            Nat.le_trans (by simp [List.length_drop]) h2
          rw [ih (rest.drop prest.length) m p0 prest rep hd1 hd2]
        · simp only [pyReplaceF, hcond, Bool.false_eq_true, if_false]
          rw [ih rest m p0 prest rep h1 h2]

theorem pyReplace_nil (p0 : Char) (prest rep : List Char) :
    pyReplace [] p0 prest rep = [] := rfl

theorem pyReplace_cons_hit {c : Char} {rest : List Char} {p0 : Char}
    {prest : List Char} (rep : List Char)
    (h : (c = p0 && startsWith rest prest) = true) :
    pyReplace (c :: rest) p0 prest rep =
      rep ++ pyReplace (rest.drop prest.length) p0 prest rep := by
  unfold pyReplace
  simp only [List.length_cons, pyReplaceF, h, if_true]
  rw [pyReplaceF_congr rest.length (rest.drop prest.length)
    (rest.drop prest.length).length p0 prest rep
    (by simp [List.length_drop]) (Nat.le_refl _)]

theorem pyReplace_cons_miss {c : Char} {rest : List Char} {p0 : Char}
    {prest : List Char} (rep : List Char)
    (h : (c = p0 && startsWith rest prest) = false) :
    pyReplace (c :: rest) p0 prest rep = c :: pyReplace rest p0 prest rep := by
  unfold pyReplace
  simp only [List.length_cons, pyReplaceF, h, Bool.false_eq_true, if_false]

theorem dollarTok_tail : dollarTok.tail = ['d', 'o', 'l', 'l', 'a', 'r', ';'] := rfl

theorem periodTok_tail : periodTok.tail = ['p', 'e', 'r', 'i', 'o', 'd', ';'] := rfl

theorem dollarTok_cons_append (x : List Char) :
    dollarTok ++ x = '&' :: (dollarTok.tail ++ x) := rfl

theorem periodTok_cons_append (x : List Char) :
    periodTok ++ x = '&' :: (periodTok.tail ++ x) := rfl

theorem pyReplace_single (s : List Char) (p0 : Char) (rep : List Char) :
    pyReplace s p0 [] rep = s.flatMap (fun c => if c = p0 then rep else [c]) := by
  induction s with
  | nil => simp [pyReplace_nil]
  | cons c rest ih =>
    by_cases h : c = p0
    · rw [pyReplace_cons_hit rep (by simp [h, startsWith])]
      simp [h, ih]
    · rw [pyReplace_cons_miss rep (by simp [h])]
      simp [h, ih]

theorem bind_encDollar_encPeriod (k : List Char) :
    (k.flatMap encDollar).flatMap encPeriod = k.flatMap encChar := by
  induction k with
  | nil => simp
  | cons c rest ih =>
    have hstep : (encDollar c).flatMap encPeriod = encChar c := by
      by_cases h1 : c = '$'
      · subst h1; decide
      · by_cases h2 : c = '.'
        · subst h2; decide
        · simp [encDollar, encPeriod, encChar, h1, h2]
    simp only [List.flatMap_cons, List.flatMap_append, ih, hstep]

theorem fix_single_eq_spec (k : List Char) :
    fix_single_dict_key_chars k = k.flatMap encChar := by
  unfold fix_single_dict_key_chars
  rw [pyReplace_single, pyReplace_single]
  have h1 : (fun c => if c = '$' then dollarTok else [c]) = encDollar := rfl
  have h2 : (fun c => if c = '.' then periodTok else [c]) = encPeriod := rfl
  rw [h1, h2, bind_encDollar_encPeriod]

theorem startsWith_append (a b : List Char) : startsWith (a ++ b) a = true := by
  induction a with
  | nil => simp [startsWith]
  | cons c rest ih => simp [startsWith, ih]

theorem pyReplace_skip {p0 : Char} (w : List Char)
    (hw : ∀ c ∈ w, ¬c = p0) (rest prest rep : List Char) :
    pyReplace (w ++ rest) p0 prest rep = w ++ pyReplace rest p0 prest rep := by
  induction w with
  | nil => simp
  | cons c w' ih =>
    have hc : ¬c = p0 := hw c (List.mem_cons_self c w')
    rw [List.cons_append, pyReplace_cons_miss rep (by simp [hc])]
    simp only [List.cons_append]
    rw [ih (fun c hmem => hw c (List.mem_cons_of_mem _ hmem))]

theorem containsSub_cons_false {c : Char} {rest pat : List Char}
    (h : containsSub (c :: rest) pat = false) :
    startsWith (c :: rest) pat = false ∧ containsSub rest pat = false := by
  have := h
  simp only [containsSub, Bool.or_eq_false_iff] at this
  exact this

theorem startsWith_enc_plain :
    ∀ (w t : List Char), (∀ c ∈ w, c ≠ '$' ∧ c ≠ '.' ∧ c ≠ '&') →
      startsWith (t.flatMap encChar) w = true → startsWith t w = true
  | [], t, _, _ => by simp [startsWith]
  | d :: w', t, hw, h => by
    match t with
    | [] => simp [startsWith] at h
    | c :: t' =>
      have hd := hw d (List.mem_cons_self d w')
      have hw' : ∀ c ∈ w', c ≠ '$' ∧ c ≠ '.' ∧ c ≠ '&' :=
        fun c hmem => hw c (List.mem_cons_of_mem _ hmem)
      by_cases h1 : c = '$'
      · subst h1
        simp only [List.flatMap_cons] at h
        rw [show encChar '$' = dollarTok from rfl] at h
        simp [dollarTok, startsWith, hd.2.2.symm] at h
      · by_cases h2 : c = '.'
        · subst h2
          simp only [List.flatMap_cons] at h
          rw [show encChar '.' = periodTok from rfl] at h
          simp [periodTok, startsWith, hd.2.2.symm] at h
        · simp only [List.flatMap_cons, encChar, h1, h2, if_false,
            List.singleton_append, startsWith, Bool.and_eq_true,
            decide_eq_true_eq] at h
          simp only [startsWith, Bool.and_eq_true, decide_eq_true_eq]
          exact ⟨h.1, startsWith_enc_plain w' t' hw' h.2⟩

theorem startsWith_encP_plain :
    ∀ (w t : List Char), (∀ c ∈ w, c ≠ '.' ∧ c ≠ '&') →
      startsWith (t.flatMap encPeriod) w = true → startsWith t w = true
  | [], t, _, _ => by simp [startsWith]
  | d :: w', t, hw, h => by
    match t with
    | [] => simp [startsWith] at h
    | c :: t' =>
      have hd := hw d (List.mem_cons_self d w')
      have hw' : ∀ c ∈ w', c ≠ '.' ∧ c ≠ '&' :=
        fun c hmem => hw c (List.mem_cons_of_mem _ hmem)
      by_cases h2 : c = '.'
      · subst h2
        simp only [List.flatMap_cons] at h
        rw [show encPeriod '.' = periodTok from rfl] at h
        simp [periodTok, startsWith, hd.2.symm] at h
      · simp only [List.flatMap_cons, encPeriod, h2, if_false,
          List.singleton_append, startsWith, Bool.and_eq_true,
          decide_eq_true_eq] at h
        simp only [startsWith, Bool.and_eq_true, decide_eq_true_eq]
        exact ⟨h.1, startsWith_encP_plain w' t' hw' h.2⟩

theorem decode_dollar_phase (s : List Char)
    (hs : containsSub s dollarTok = false) :
    pyReplace (s.flatMap encChar) '&' dollarTok.tail ['$'] =
      s.flatMap encPeriod := by
  induction s with
  | nil => simp [pyReplace_nil]
  | cons c t ih =>
    obtain ⟨hsw, hst⟩ := containsSub_cons_false hs
    have iht := ih hst
    by_cases h1 : c = '$'
    · subst h1
      simp only [List.flatMap_cons]
      rw [show encChar '$' = dollarTok from rfl, show encPeriod '$' = ['$'] from rfl]
      rw [dollarTok_cons_append]
      rw [pyReplace_cons_hit ['$'] (by simp [startsWith_append])]
      rw [List.drop_left]
      simp [iht]
    · by_cases h2 : c = '.'
      · subst h2
        simp only [List.flatMap_cons]
        rw [show encChar '.' = periodTok from rfl, show encPeriod '.' = periodTok from rfl]
        rw [periodTok_cons_append]
        rw [pyReplace_cons_miss ['$'] (by simp [periodTok_tail, dollarTok_tail, startsWith])]
        rw [pyReplace_skip periodTok.tail (by decide) _ _ _]
        rw [iht, periodTok_cons_append]
      · simp only [List.flatMap_cons]
        rw [show encChar c = [c] by simp [encChar, h1, h2],
          show encPeriod c = [c] by simp [encPeriod, h2]]
        by_cases h3 : c = '&'
        · subst h3
          have hmiss : startsWith (t.flatMap encChar) dollarTok.tail = false := by
            by_contra hcon
            have htrue : startsWith (t.flatMap encChar) dollarTok.tail = true := by
              revert hcon; cases startsWith (t.flatMap encChar) dollarTok.tail <;> simp
            have hplain : startsWith t dollarTok.tail = true :=
              startsWith_enc_plain dollarTok.tail t (by decide) htrue
            have : startsWith ('&' :: t) dollarTok = true := by
              rw [show dollarTok = '&' :: dollarTok.tail from rfl]
              simp [startsWith, hplain]
            rw [this] at hsw
            exact Bool.true_eq_false.mp hsw
          rw [List.singleton_append,
            pyReplace_cons_miss ['$'] (by simp [hmiss]), iht]
          rfl
        · rw [List.singleton_append,
            pyReplace_cons_miss ['$'] (by simp [h3]), iht]
          rfl

theorem decode_period_phase (s : List Char)
    (hs : containsSub s periodTok = false) :
    pyReplace (s.flatMap encPeriod) '&' periodTok.tail ['.'] = s := by
  induction s with
  | nil => simp [pyReplace_nil]
  | cons c t ih =>
    obtain ⟨hsw, hst⟩ := containsSub_cons_false hs
    have iht := ih hst
    by_cases h2 : c = '.'
    · subst h2
      simp only [List.flatMap_cons]
      rw [show encPeriod '.' = periodTok from rfl]
      rw [periodTok_cons_append]
      rw [pyReplace_cons_hit ['.'] (by simp [startsWith_append])]
      rw [List.drop_left]
      simp [iht]
    · simp only [List.flatMap_cons]
      rw [show encPeriod c = [c] by simp [encPeriod, h2]]
      by_cases h3 : c = '&'
      · subst h3
        have hmiss : startsWith (t.flatMap encPeriod) periodTok.tail = false := by
          by_contra hcon
          have htrue : startsWith (t.flatMap encPeriod) periodTok.tail = true := by
            revert hcon; cases startsWith (t.flatMap encPeriod) periodTok.tail <;> simp
          have hplain : startsWith t periodTok.tail = true :=
            startsWith_encP_plain periodTok.tail t (by decide) htrue
          have : startsWith ('&' :: t) periodTok = true := by
            rw [show periodTok = '&' :: periodTok.tail from rfl]
            simp [startsWith, hplain]
          rw [this] at hsw
          exact Bool.true_eq_false.mp hsw
        rw [List.singleton_append,
          pyReplace_cons_miss ['.'] (by simp [hmiss]), iht]
      · rw [List.singleton_append,
          pyReplace_cons_miss ['.'] (by simp [h3]), iht]

theorem key_roundtrip_chars (k : List Char) (h : validKeyChars k = true) :
    unfix_single_dict_key_chars (fix_single_dict_key_chars k) = k := by
  simp only [validKeyChars, Bool.and_eq_true, Bool.not_eq_true',
    Bool.not_eq_false] at h
  obtain ⟨hD, hP⟩ := h
  unfold unfix_single_dict_key_chars
  rw [fix_single_eq_spec, decode_dollar_phase k hD, decode_period_phase k hP]

theorem key_roundtrip (k : String) (h : validKey k = true) :
    unfix_single_dict_key (fix_single_dict_key k) = k := by
  unfold unfix_single_dict_key fix_single_dict_key
  rw [show (String.mk (fix_single_dict_key_chars k.data)).data =
    fix_single_dict_key_chars k.data from rfl]
  rw [key_roundtrip_chars k.data h]

mutual

theorem unfix_fix_val : ∀ v : Val, validKeysV v = true →
    unfix_dict_keys (fix_dict_keys v) = v
  | .vNone, _ => rfl
  | .vBool _, _ => rfl
  | .vInt _, _ => rfl
  | .vFloat _, _ => rfl
  | .vStr _, _ => rfl
  | .vObjId _, _ => rfl
  | .vDocInst _ _, _ => rfl
  | .vDict d, h => by
    rw [fix_dict_keys, unfix_dict_keys,
      unfix_fix_entries d (by simpa [validKeysV] using h)]
  | .vList l, h => by
    rw [fix_dict_keys, unfix_dict_keys,
      unfix_fix_elems l (by simpa [validKeysV] using h)]

theorem unfix_fix_entries : ∀ d : List (String × Val),
    validKeysEntries d = true →
    unfix_dict_keys_entries (fix_dict_keys_entries d) = d
  | [], _ => rfl
  | (k, v) :: rest, h => by
    rw [validKeysEntries, Bool.and_eq_true, Bool.and_eq_true] at h
    rw [fix_dict_keys_entries, unfix_dict_keys_entries,
      key_roundtrip k h.1.1, unfix_fix_val v h.1.2, unfix_fix_entries rest h.2]

theorem unfix_fix_elems : ∀ l : List Val, validKeysElems l = true →
    unfix_dict_keys_elems (fix_dict_keys_elems l) = l
  | [], _ => rfl
  | v :: rest, h => by
    rw [validKeysElems, Bool.and_eq_true] at h
    rw [fix_dict_keys_elems, unfix_dict_keys_elems,
      unfix_fix_val v h.1, unfix_fix_elems rest h.2]

end

/-- C2: Key-codec round trip.  For every nested structure of maps, sequences
and scalars whose map keys may contain the dollar or period characters but
do not already contain the escape tokens, decoding the encoding yields the
structure back: unfix_dict_keys (fix_dict_keys d) = d.  Encoding rewrites
map keys only (never string values), by the ordered substitutions of
DICT_KEY_REPLACEMENTS, recursing through nested maps and sequence
elements; decoding applies the reverse substitutions in the same order. -/
theorem claim_C2_key_codec_roundtrip (d : Val) (h : validKeysV d = true) :
    unfix_dict_keys (fix_dict_keys d) = d :=
  unfix_fix_val d h

theorem claim_C2_key_codec_roundtrip_witness :
    validKeysV (Val.vDict
      [("$this.thing", Val.vStr "that"),
       ("a.t", Val.vDict [("a.b", Val.vStr "thing"),
          ("dudeman", Val.vDict [("hello.world", Val.vStr "nothing")])]),
       ("list_data", Val.vList [Val.vDict [("this.thing", Val.vStr "that")]])])
        = true ∧
    unfix_dict_keys (fix_dict_keys (Val.vDict
      [("$this.thing", Val.vStr "that"),
       ("a.t", Val.vDict [("a.b", Val.vStr "thing"),
          ("dudeman", Val.vDict [("hello.world", Val.vStr "nothing")])]),
       ("list_data", Val.vList [Val.vDict [("this.thing", Val.vStr "that")]])])) =
      Val.vDict
      [("$this.thing", Val.vStr "that"),
       ("a.t", Val.vDict [("a.b", Val.vStr "thing"),
          ("dudeman", Val.vDict [("hello.world", Val.vStr "nothing")])]),
       ("list_data", Val.vList [Val.vDict [("this.thing", Val.vStr "that")]])] :=
  ⟨by decide, claim_C2_key_codec_roundtrip _ (by decide)⟩


theorem remove_first_map {α β : Type} (f : α → β) (p : β → Bool) :
    ∀ l : List α,
      remove_first p (l.map f) =
        (remove_first (fun a => p (f a)) l).map (List.map f)
  | [] => rfl
  | x :: rest => by
    by_cases h : p (f x)
    · simp [remove_first, h]
    · simp [remove_first, h, remove_first_map f p rest, Option.map_map]
      rfl

theorem eraseIdx_map {α β : Type} (f : α → β) :
    ∀ (l : List α) (i : Nat), (l.map f).eraseIdx i = (l.eraseIdx i).map f
  | [], _ => rfl
  | x :: rest, 0 => rfl
  | x :: rest, i + 1 => by
    simp [List.eraseIdx, eraseIdx_map f rest i]

/-- C7: Reference list proxy lock-step invariant.  Provided the proxy and
its backing id sequence are in lock-step (backing = proxy ids, positionally),
append adds the wrapper and its id at the same last position, remove removes
the first matching wrapper and its id at the same position (and leaves both
unchanged on a failed removal), and pop removes the same position i from
both; in every case the two sequences are again in lock-step, with equal
length and the proxy id at every index equal to the backing id there. -/
theorem claim_C7_reflist_lockstep :
    (∀ (deref : List Wrapper) (reflist : List Val) (obj : Wrapper),
      lockstep deref reflist →
      reflist_append deref reflist obj = (deref ++ [obj], reflist ++ [obj.idVal]) ∧
      lockstep (deref ++ [obj]) (reflist ++ [obj.idVal])) ∧
    (∀ (deref : List Wrapper) (reflist : List Val) (obj : Wrapper)
      (res : Except PyErr Unit) (deref' : List Wrapper) (reflist' : List Val),
      lockstep deref reflist →
      reflist_remove deref reflist obj = (res, deref', reflist') →
      lockstep deref' reflist' ∧
      (res = .ok () ∨ (deref' = deref ∧ reflist' = reflist))) ∧
    (∀ (deref : List Wrapper) (reflist : List Val) (i : Nat),
      lockstep deref reflist → i < deref.length →
      reflist_pop deref reflist i =
        (.ok (), deref.eraseIdx i, (deref.eraseIdx i).map Wrapper.idVal)) := by
  refine ⟨?_, ?_, ?_⟩
  · intro deref reflist obj h
    refine ⟨rfl, ?_⟩
    unfold lockstep at h ⊢
    simp [h]
  · intro deref reflist obj res deref' reflist' h heq
    unfold lockstep at h
    subst h
    unfold reflist_remove at heq
    rw [remove_first_map Wrapper.idVal (fun v => v = obj.idVal) deref] at heq
    cases hrem : remove_first (fun w => w.idVal = obj.idVal) deref with
    | none =>
      rw [hrem] at heq
      simp at heq
      obtain ⟨h1, h2, h3⟩ := heq
      subst h1; subst h2; subst h3
      exact ⟨rfl, Or.inr ⟨rfl, rfl⟩⟩
    | some d' =>
      rw [hrem] at heq
      simp [hrem] at heq
      obtain ⟨h1, h2, h3⟩ := heq
      subst h1; subst h2; subst h3
      exact ⟨rfl, Or.inl rfl⟩
  · intro deref reflist i h hi
    unfold lockstep at h
    subst h
    unfold reflist_pop
    have hlen : i < (deref.map Wrapper.idVal).length := by simpa using hi
    simp only [hlen, if_pos, hi, eraseIdx_map]

theorem claim_C7_reflist_lockstep_witness :
    lockstep [⟨0, [("id", Val.vObjId 1)]⟩, ⟨1, [("id", Val.vObjId 2)]⟩]
      [Val.vObjId 1, Val.vObjId 2] ∧
    reflist_pop [⟨0, [("id", Val.vObjId 1)]⟩, ⟨1, [("id", Val.vObjId 2)]⟩]
      [Val.vObjId 1, Val.vObjId 2] 0 =
      (.ok (), [⟨1, [("id", Val.vObjId 2)]⟩], [Val.vObjId 2]) :=
  ⟨by unfold lockstep; decide,
   claim_C7_reflist_lockstep.2.2
     [⟨0, [("id", Val.vObjId 1)]⟩, ⟨1, [("id", Val.vObjId 2)]⟩]
     [Val.vObjId 1, Val.vObjId 2]
     0 (by unfold lockstep; decide) (by decide)⟩

theorem check_entry_type_ref_rejects (key : String) (entry : Val)
    (mf : MongoField) (nm : String) (htype : mf.type = .tSchemaRef nm)
    (hno : ∀ i, entry ≠ .vObjId i) :
    check_entry_type key entry mf =
      .error (.validationError ("Expected an ObjectId got " ++ entry.typeName)) := by
  unfold check_entry_type
  rw [htype]
  cases entry
  case vObjId i => exact absurd rfl (hno i)
  all_goals rfl

theorem validate_mongo_field_ok_check (key : String) (doc : Doc)
    (mf : MongoField) (entry : Val) (hget : getA doc key = some entry)
    (hok : validate_mongo_field key doc mf = .ok ()) :
    check_entry_type key entry mf = .ok () := by
  unfold validate_mongo_field at hok
  have hmem : memA doc key = true := by simp [memA, hget]
  simp only [hmem, hget, Bool.not_true, Bool.and_false] at hok
  simp only [if_false, Bool.false_eq_true] at hok
  cases hc : check_entry_type key entry mf with
  | ok u => cases u; rfl
  | error e => rw [hc] at hok; simp at hok

theorem validate_items_ok_mem :
    ∀ (schema : Schema) (doc : Doc) (key : String) (item : SchemaItem),
      validate_items schema doc = .ok () → (key, item) ∈ schema →
      validate_item key item doc = .ok ()
  | [], _, _, _, _, hmem => absurd hmem (List.not_mem_nil _)
  | (k0, i0) :: rest, doc, key, item, hok, hmem => by
    rw [validate_items] at hok
    cases hv : validate_item k0 i0 doc with
    | error e => rw [hv] at hok; simp at hok
    | ok u =>
      cases u
      rw [hv] at hok
      rcases List.mem_cons.mp hmem with h | h
      · injection h with h1 h2
        subst h1; subst h2
        exact hv
      · exact validate_items_ok_mem rest doc key item hok h

/-- C8: Reference fields accept only the native id type.  For every field
whose declared type is an Entity Type, _check_entry_type fails with the
Expected-an-ObjectId error unless the stored value is exactly an ObjectId
(in particular a raw string or an entity instance is rejected), and
consequently full record validation cannot succeed when such a field holds
a non-ObjectId value. -/
theorem claim_C8_reference_field_requires_objectid :
    (∀ (key : String) (entry : Val) (mf : MongoField) (nm : String),
      mf.type = .tSchemaRef nm → (∀ i, entry ≠ .vObjId i) →
      check_entry_type key entry mf =
        .error (.validationError ("Expected an ObjectId got " ++ entry.typeName))) ∧
    (∀ (schema : Schema) (doc : Doc) (key : String) (mf : MongoField)
      (nm : String) (entry : Val),
      (key, SchemaItem.fld mf) ∈ schema → mf.type = .tSchemaRef nm →
      getA doc key = some entry → (∀ i, entry ≠ .vObjId i) →
      validate schema doc ≠ .ok ()) := by
  constructor
  · exact check_entry_type_ref_rejects
  · intro schema doc key mf nm entry hmem htype hget hno hval
    unfold validate at hval
    cases hu : validate_unknown_check schema doc with
    | error e => rw [hu] at hval; simp at hval
    | ok u =>
      cases u
      rw [hu] at hval
      have hitem := validate_items_ok_mem schema doc key (.fld mf) hval hmem
      rw [validate_item] at hitem
      have hcheck := validate_mongo_field_ok_check key doc mf entry hget hitem
      rw [check_entry_type_ref_rejects key entry mf nm htype hno] at hcheck
      simp at hcheck

theorem claim_C8_reference_field_requires_objectid_witness :
    check_entry_type "user" (Val.vStr "abc")
      ⟨.tSchemaRef "User", none, none, true, none, none⟩ =
      .error (.validationError "Expected an ObjectId got str") ∧
    check_entry_type "user" (Val.vDocInst 3 7)
      ⟨.tSchemaRef "User", none, none, true, none, none⟩ =
      .error (.validationError "Expected an ObjectId got MongoDoc") ∧
    validate [("user", SchemaItem.fld ⟨.tSchemaRef "User", none, none, true, none, none⟩)]
      [("user", Val.vStr "abc")] ≠ .ok () :=
  ⟨claim_C8_reference_field_requires_objectid.1 "user" (Val.vStr "abc")
      ⟨.tSchemaRef "User", none, none, true, none, none⟩ "User" rfl
      (fun i => by simp),
   claim_C8_reference_field_requires_objectid.1 "user" (Val.vDocInst 3 7)
      ⟨.tSchemaRef "User", none, none, true, none, none⟩ "User" rfl
      (fun i => by simp),
   claim_C8_reference_field_requires_objectid.2 _ _ "user"
      ⟨.tSchemaRef "User", none, none, true, none, none⟩ "User" (Val.vStr "abc")
      (by simp) rfl rfl (fun i => by simp)⟩

/-- C10: Implicit cache short-circuit.  On a cache-enabled type, any get
whose (translated) query carries an id value present in the identity cache
returns the cached wrapper immediately with the state untouched, regardless
of any further query keys; the second conjunct exhibits a state and a
compound query where the stored document does not satisfy the full query
(find_one on the translated query returns none), yet get answers it with
the cached wrapper. -/
theorem claim_C10_cache_short_circuit :
    (∀ (schema : Schema) (q : Doc) (st : DBState) (idv : Val) (w : Wrapper),
      st.cache_enabled = true →
      getA (mongodoc_to_id q) "id" = some idv →
      getA st.cache idv = some w →
      get schema q st = (.ok (some w), st)) ∧
    (∃ (schema : Schema) (q q2 : Doc) (st : DBState) (w : Wrapper) (fr : Nat),
      st.cache_enabled = true ∧
      get schema q st = (.ok (some w), st) ∧
      fordb_fix_id (mongodoc_to_id q) true st.fresh = .ok (q2, fr) ∧
      find_one st.db q2 = none) := by
  constructor
  · intro schema q st idv w h1 h2 h3
    simp [get, h1, h2, h3]
  · refine ⟨[], [("id", Val.vObjId 5), ("username", Val.vStr "bob")],
      [("username", Val.vStr "bob"), ("_id", Val.vObjId 5)],
      ⟨[[("_id", Val.vObjId 5), ("username", Val.vStr "alice")]],
        [(Val.vObjId 5, ⟨0, [("id", Val.vObjId 5), ("username", Val.vStr "alice")]⟩)],
        true, 9, 1⟩,
      ⟨0, [("id", Val.vObjId 5), ("username", Val.vStr "alice")]⟩, 9,
      rfl, rfl, rfl, rfl⟩

theorem claim_C10_cache_short_circuit_witness :
    get [] [("id", Val.vObjId 5), ("username", Val.vStr "bob")]
      ⟨[[("_id", Val.vObjId 5), ("username", Val.vStr "alice")]],
        [(Val.vObjId 5, ⟨0, [("id", Val.vObjId 5), ("username", Val.vStr "alice")]⟩)],
        true, 9, 1⟩ =
      (.ok (some ⟨0, [("id", Val.vObjId 5), ("username", Val.vStr "alice")]⟩),
        ⟨[[("_id", Val.vObjId 5), ("username", Val.vStr "alice")]],
          [(Val.vObjId 5, ⟨0, [("id", Val.vObjId 5), ("username", Val.vStr "alice")]⟩)],
          true, 9, 1⟩) :=
  claim_C10_cache_short_circuit.1 []
    [("id", Val.vObjId 5), ("username", Val.vStr "bob")] _ (Val.vObjId 5) _
    rfl rfl rfl

/-- C5: Update atomicity toward storage.  save validates the full wrapper
record inside _writedoc before any storage operation, so a validation
failure makes save return that error with the state (and hence the stored
collection) unchanged; likewise a MongoDoc.update whose assignments pass
the schema-key lookup but whose resulting record fails validation performs
no storage operation and propagates the validation error. -/
theorem claim_C5_save_validates_before_write :
    (∀ (schema : Schema) (w : Wrapper) (st : DBState) (e : PyErr),
      validate schema w.doc = .error e →
      save schema w st = (.error e, st)) ∧
    (∀ (schema : Schema) (w : Wrapper) (raw : Doc) (st : DBState)
      (doc' : Doc) (e : PyErr),
      apply_update_fields schema w.doc raw = (.ok (), doc') →
      validate schema doc' = .error e →
      (mongodoc_update schema w raw st).1 = .error e ∧
      (mongodoc_update schema w raw st).2.2 = st) := by
  constructor
  · intro schema w st e hval
    simp [save, writedoc, hval]
  · intro schema w raw st doc' e happ hval
    simp [mongodoc_update, happ, save, writedoc, hval]

theorem claim_C5_save_validates_before_write_witness :
    save
      [("id", SchemaItem.fld ⟨.tObjectId, none, some (.vObjId 0), false, none, none⟩),
       ("username", SchemaItem.fld ⟨.tStr, none, none, true, none, none⟩)]
      ⟨0, [("id", Val.vObjId 5), ("username", Val.vInt 7)]⟩
      ⟨[[("_id", Val.vObjId 5), ("username", Val.vStr "old")]], [], true, 6, 1⟩ =
      (.error (.validationError "username: Expected type str, got int"),
       ⟨[[("_id", Val.vObjId 5), ("username", Val.vStr "old")]], [], true, 6, 1⟩) :=
  claim_C5_save_validates_before_write.1
    [("id", SchemaItem.fld ⟨.tObjectId, none, some (.vObjId 0), false, none, none⟩),
     ("username", SchemaItem.fld ⟨.tStr, none, none, true, none, none⟩)]
    ⟨0, [("id", Val.vObjId 5), ("username", Val.vInt 7)]⟩
    ⟨[[("_id", Val.vObjId 5), ("username", Val.vStr "old")]], [], true, 6, 1⟩
    (.validationError "username: Expected type str, got int") rfl

/-- C3 (counterexample): the claim that a failed update leaves the wrapper
record unchanged is false.  MongoDoc.update assigns the new field values
into the in-memory record before save validates them, so after this failing
update call (type mismatch on username) the wrapper record holds the new
invalid value and differs from the record before the call. -/
theorem claim_C3_update_counterexample :
    (mongodoc_update
      [("id", SchemaItem.fld ⟨.tObjectId, none, some (.vObjId 0), false, none, none⟩),
       ("username", SchemaItem.fld ⟨.tStr, none, none, true, none, none⟩)]
      ⟨0, [("id", Val.vObjId 5), ("username", Val.vStr "old")]⟩
      [("username", Val.vInt 1)]
      ⟨[[("_id", Val.vObjId 5), ("username", Val.vStr "old")]], [], true, 6, 1⟩).1 =
      .error (.validationError "username: Expected type str, got int") ∧
    (mongodoc_update
      [("id", SchemaItem.fld ⟨.tObjectId, none, some (.vObjId 0), false, none, none⟩),
       ("username", SchemaItem.fld ⟨.tStr, none, none, true, none, none⟩)]
      ⟨0, [("id", Val.vObjId 5), ("username", Val.vStr "old")]⟩
      [("username", Val.vInt 1)]
      ⟨[[("_id", Val.vObjId 5), ("username", Val.vStr "old")]], [], true, 6, 1⟩).2.1.doc =
      [("id", Val.vObjId 5), ("username", Val.vInt 1)] ∧
    [("id", Val.vObjId 5), ("username", Val.vInt 1)] ≠
      [("id", Val.vObjId 5), ("username", Val.vStr "old")] :=
  ⟨rfl, rfl, by decide⟩

/-- C3 (amended): for every update call whose assignments pass the
schema-key lookup but whose resulting record fails validation, the error
propagates and no storage write happens (the state is returned unchanged),
but the wrapper — same object identity — now carries the record with the
attempted new field values rather than its record from before the call. -/
theorem claim_C3_update_failure_state (schema : Schema) (w : Wrapper)
    (raw : Doc) (st : DBState) (doc' : Doc) (e : PyErr)
    (happ : apply_update_fields schema w.doc raw = (.ok (), doc'))
    (hval : validate schema doc' = .error e) :
    mongodoc_update schema w raw st = (.error e, ⟨w.tag, doc'⟩, st) := by
  simp [mongodoc_update, happ, save, writedoc, hval]

theorem claim_C3_update_failure_state_witness :
    mongodoc_update
      [("id", SchemaItem.fld ⟨.tObjectId, none, some (.vObjId 0), false, none, none⟩),
       ("username", SchemaItem.fld ⟨.tStr, none, none, true, none, none⟩)]
      ⟨0, [("id", Val.vObjId 5), ("username", Val.vStr "old")]⟩
      [("username", Val.vInt 1)]
      ⟨[[("_id", Val.vObjId 5), ("username", Val.vStr "old")]], [], true, 6, 1⟩ =
      (.error (.validationError "username: Expected type str, got int"),
       ⟨0, [("id", Val.vObjId 5), ("username", Val.vInt 1)]⟩,
       ⟨[[("_id", Val.vObjId 5), ("username", Val.vStr "old")]], [], true, 6, 1⟩) :=
  claim_C3_update_failure_state
    [("id", SchemaItem.fld ⟨.tObjectId, none, some (.vObjId 0), false, none, none⟩),
     ("username", SchemaItem.fld ⟨.tStr, none, none, true, none, none⟩)]
    ⟨0, [("id", Val.vObjId 5), ("username", Val.vStr "old")]⟩
    [("username", Val.vInt 1)]
    ⟨[[("_id", Val.vObjId 5), ("username", Val.vStr "old")]], [], true, 6, 1⟩
    [("id", Val.vObjId 5), ("username", Val.vInt 1)]
    (.validationError "username: Expected type str, got int") rfl rfl

theorem create_error_of_phase_error (schema : Schema) (doc : Doc)
    (st : DBState) (e : PyErr)
    (hph : create_validation_phase schema doc = .error e) :
    create schema doc st = (.error e, st) := by
  unfold create_validation_phase at hph
  cases h1 : fill_defaults schema doc with
  | error e1 =>
    simp only [h1] at hph
    injection hph with he
    subst he
    simp [create, h1]
  | ok doc1 =>
    simp only [h1] at hph
    cases h2 : basic_schema_validation schema doc1 with
    | error e2 =>
      simp only [h2] at hph
      injection hph with he
      subst he
      simp [create, h1, h2]
    | ok u =>
      cases u
      simp only [h2] at hph
      cases h3 : fix_references schema doc1 with
      | error e3 =>
        simp only [h3] at hph
        injection hph with he
        subst he
        simp [create, h1, h2, h3]
      | ok doc2 =>
        simp only [h3] at hph
        cases h4 : validate schema doc2 with
        | error e4 =>
          simp only [h4] at hph
          injection hph with he
          subst he
          simp [create, h1, h2, h3, writedoc, h4]
        | ok u2 =>
          cases u2
          simp only [h4] at hph
          simp at hph

theorem basic_unknown_exists :
    ∀ (schema : Schema) (doc1 : Doc) (k : String),
      memA doc1 k = true → getA schema k = none →
      ∃ k', getA schema k' = none ∧
        basic_schema_validation schema doc1 =
          .error (.validationError ("Unknown key " ++ k'))
  | schema, [], k, hm, _ => by simp [memA, getA] at hm
  | schema, (k0, v0) :: rest, k, hm, hun => by
    by_cases h0 : memA schema k0 = true
    · have hne : k0 ≠ k := by
        intro he
        subst he
        simp [memA, hun] at h0
      have hm' : memA rest k = true := by
        simpa [memA, getA, hne] using hm
      obtain ⟨k', h1, h2⟩ := basic_unknown_exists schema rest k hm' hun
      exact ⟨k', h1, by simp [basic_schema_validation, h0, h2]⟩
    · have h0' : getA schema k0 = none := by
        cases hg : getA schema k0 with
        | none => rfl
        | some v => simp [memA, hg] at h0
      exact ⟨k0, h0', by simp [basic_schema_validation, h0]⟩

/-- C4: Create atomicity.  Every failure of the validation phase of create
(default filling, the unknown-top-level-key check, reference conversion, or
the full validation performed inside _writedoc before the insert) makes
create return that error with the state — in particular the stored
collection — unchanged; and create with a record key absent from the schema
fails with the Unknown-key ValidationError, again leaving the state
unchanged. -/
theorem claim_C4_create_atomicity :
    (∀ (schema : Schema) (doc : Doc) (st : DBState) (e : PyErr),
      create_validation_phase schema doc = .error e →
      create schema doc st = (.error e, st)) ∧
    (∀ (schema : Schema) (doc doc1 : Doc) (st : DBState) (k : String),
      fill_defaults schema doc = .ok doc1 →
      memA doc1 k = true → getA schema k = none →
      ∃ k', getA schema k' = none ∧
        create schema doc st =
          (.error (.validationError ("Unknown key " ++ k')), st)) := by
  constructor
  · exact create_error_of_phase_error
  · intro schema doc doc1 st k hfill hm hun
    obtain ⟨k', hk', hbasic⟩ := basic_unknown_exists schema doc1 k hm hun
    refine ⟨k', hk', ?_⟩
    apply create_error_of_phase_error
    unfold create_validation_phase
    simp [hfill, hbasic]

theorem claim_C4_create_atomicity_witness :
    create
      [("id", SchemaItem.fld ⟨.tObjectId, none, some (.vObjId 0), false, none, none⟩),
       ("username", SchemaItem.fld ⟨.tStr, none, none, true, none, none⟩)]
      [("username", Val.vStr "x"), ("extra", Val.vStr "y")]
      ⟨[], [], true, 0, 0⟩ =
      (.error (.validationError "Unknown key extra"), ⟨[], [], true, 0, 0⟩) :=
  claim_C4_create_atomicity.1
    [("id", SchemaItem.fld ⟨.tObjectId, none, some (.vObjId 0), false, none, none⟩),
     ("username", SchemaItem.fld ⟨.tStr, none, none, true, none, none⟩)]
    [("username", Val.vStr "x"), ("extra", Val.vStr "y")]
    ⟨[], [], true, 0, 0⟩
    (.validationError "Unknown key extra") rfl

theorem fordb_fix_id_idquery (x : Nat) (fresh : Nat) :
    fordb_fix_id [("id", Val.vObjId x)] true fresh =
      .ok ([("_id", Val.vObjId x)], fresh) := rfl

theorem get_disabled_inversion (schema : Schema) (x : Nat) (st : DBState)
    (w : Wrapper) (st' : DBState) (hc : st.cache_enabled = false)
    (h : get schema [("id", Val.vObjId x)] st = (.ok (some w), st')) :
    ∃ r doc', find_one st.db [("_id", Val.vObjId x)] = some r ∧
      fromdb_doc schema r = .ok doc' ∧
      w = ⟨st.next_tag, doc'⟩ ∧
      st' = { st with next_tag := st.next_tag + 1 } := by
  unfold get at h
  simp only [mongodoc_to_id, List.map_cons, List.map_nil, hc,
    Bool.false_eq_true, if_false, fordb_fix_id_idquery] at h
  cases hfind : find_one st.db [("_id", Val.vObjId x)] with
  | none => simp only [hfind] at h; simp at h
  | some r =>
    simp only [hfind] at h
    cases hfrom : fromdb_doc schema r with
    | error e => simp only [hfrom] at h; simp at h
    | ok doc' =>
      simp only [hfrom] at h
      simp only [Prod.mk.injEq, Except.ok.injEq, Option.some.injEq] at h
      refine ⟨r, doc', rfl, hfrom, h.1.symm, ?_⟩
      rw [show ({ st with next_tag := st.next_tag + 1 } : DBState) =
        ⟨st.db, st.cache, st.cache_enabled, st.fresh, st.next_tag + 1⟩ from rfl, hc]
      exact h.2.symm

/-- C9: Disabled cache.  With caching disabled, two successful get-by-id
calls for the same id construct two fresh wrappers: their in-memory records
(and so their logical ids) are equal, but they are distinct instances
(distinct allocation tags), and neither call reads or writes the identity
cache or the stored collection. -/
theorem claim_C9_disabled_cache (schema : Schema) (x : Nat) (st : DBState)
    (w1 w2 : Wrapper) (st1 st2 : DBState)
    (hc : st.cache_enabled = false)
    (h1 : get schema [("id", Val.vObjId x)] st = (.ok (some w1), st1))
    (h2 : get schema [("id", Val.vObjId x)] st1 = (.ok (some w2), st2)) :
    w1.doc = w2.doc ∧ w1.idVal = w2.idVal ∧ w1.tag ≠ w2.tag ∧
    st1.cache = st.cache ∧ st2.cache = st1.cache ∧
    st1.db = st.db ∧ st2.db = st1.db := by
  obtain ⟨r1, d1, hf1, hd1, hw1, hst1⟩ :=
    get_disabled_inversion schema x st w1 st1 hc h1
  subst hst1
  obtain ⟨r2, d2, hf2, hd2, hw2, hst2⟩ :=
    get_disabled_inversion schema x { st with next_tag := st.next_tag + 1 }
      w2 st2 hc h2
  have hr : r2 = r1 := by
    have hh : some r1 = some r2 := hf1.symm.trans hf2
    injection hh with hh2
    exact hh2.symm
  subst hr
  have hd : d2 = d1 := by
    have hh : (Except.ok d1 : Except PyErr Doc) = .ok d2 := hd1.symm.trans hd2
    injection hh with hh2
    exact hh2.symm
  subst hd
  subst hw1
  subst hw2
  subst hst2
  refine ⟨rfl, rfl, ?_, rfl, rfl, rfl, rfl⟩
  simp

theorem claim_C9_disabled_cache_witness :
    (⟨0, [("username", Val.vStr "bob"), ("id", Val.vObjId 5)]⟩ : Wrapper).doc =
      (⟨1, [("username", Val.vStr "bob"), ("id", Val.vObjId 5)]⟩ : Wrapper).doc ∧
    (⟨0, [("username", Val.vStr "bob"), ("id", Val.vObjId 5)]⟩ : Wrapper).idVal =
      (⟨1, [("username", Val.vStr "bob"), ("id", Val.vObjId 5)]⟩ : Wrapper).idVal ∧
    (⟨0, [("username", Val.vStr "bob"), ("id", Val.vObjId 5)]⟩ : Wrapper).tag ≠
      (⟨1, [("username", Val.vStr "bob"), ("id", Val.vObjId 5)]⟩ : Wrapper).tag ∧
    (⟨[[("_id", Val.vObjId 5), ("username", Val.vStr "bob")]], [], false, 6, 1⟩
      : DBState).cache =
      (⟨[[("_id", Val.vObjId 5), ("username", Val.vStr "bob")]], [], false, 6, 0⟩
        : DBState).cache ∧
    (⟨[[("_id", Val.vObjId 5), ("username", Val.vStr "bob")]], [], false, 6, 2⟩
      : DBState).cache =
      (⟨[[("_id", Val.vObjId 5), ("username", Val.vStr "bob")]], [], false, 6, 1⟩
        : DBState).cache ∧
    (⟨[[("_id", Val.vObjId 5), ("username", Val.vStr "bob")]], [], false, 6, 1⟩
      : DBState).db =
      (⟨[[("_id", Val.vObjId 5), ("username", Val.vStr "bob")]], [], false, 6, 0⟩
        : DBState).db ∧
    (⟨[[("_id", Val.vObjId 5), ("username", Val.vStr "bob")]], [], false, 6, 2⟩
      : DBState).db =
      (⟨[[("_id", Val.vObjId 5), ("username", Val.vStr "bob")]], [], false, 6, 1⟩
        : DBState).db :=
  claim_C9_disabled_cache
    [("id", SchemaItem.fld ⟨.tObjectId, none, some (.vObjId 0), false, none, none⟩),
     ("username", SchemaItem.fld ⟨.tStr, none, none, true, none, none⟩)]
    5
    ⟨[[("_id", Val.vObjId 5), ("username", Val.vStr "bob")]], [], false, 6, 0⟩
    ⟨0, [("username", Val.vStr "bob"), ("id", Val.vObjId 5)]⟩
    ⟨1, [("username", Val.vStr "bob"), ("id", Val.vObjId 5)]⟩
    ⟨[[("_id", Val.vObjId 5), ("username", Val.vStr "bob")]], [], false, 6, 1⟩
    ⟨[[("_id", Val.vObjId 5), ("username", Val.vStr "bob")]], [], false, 6, 2⟩
    rfl rfl rfl

theorem getA_some_mem {α β : Type} [DecidableEq α] :
    ∀ (d : List (α × β)) (k : α) (v : β), getA d k = some v → (k, v) ∈ d
  | [], _, _, h => by simp [getA] at h
  | (k0, v0) :: rest, k, v, h => by
    by_cases h0 : k0 = k
    · subst h0
      simp [getA] at h
      subst h
      exact List.mem_cons_self _ _
    · simp [getA, h0] at h
      exact List.mem_cons_of_mem _ (getA_some_mem rest k v h)

theorem memA_setA {α β : Type} [DecidableEq α] (d : List (α × β)) (k0 k : α)
    (v : β) (h : memA (setA d k0 v) k = true) : memA d k = true ∨ k = k0 := by
  by_cases hk : k = k0
  · exact Or.inr hk
  · left
    unfold memA at h ⊢
    rw [getA_setA_ne d k0 k v (fun he => hk he.symm)] at h
    exact h

theorem memA_delA {α β : Type} [DecidableEq α] :
    ∀ (d : List (α × β)) (k0 k : α), memA (delA d k0) k = true →
      memA d k = true
  | [], _, _, h => by simp [memA, getA, delA] at h
  | (k1, v1) :: rest, k0, k, h => by
    unfold memA getA
    by_cases h1 : k1 = k
    · simp [h1]
    · simp only [h1, if_false]
      unfold delA at h
      by_cases h2 : k1 = k0
      · simp only [h2, if_pos] at h
        exact h
      · simp only [h2, if_false] at h
        unfold memA getA at h
        simp only [h1, if_false] at h
        exact memA_delA rest k0 k h

theorem fill_defaults_item_other (k : String) (it : SchemaItem)
    (doc doc2 : Doc) (F : String) (hk : k ≠ F)
    (h : fill_defaults_item k it doc = .ok doc2) :
    getA doc2 F = getA doc F := by
  cases it with
  | fld mf =>
    simp only [fill_defaults_item, Except.ok.injEq] at h
    subst h
    by_cases hc : (!memA doc k && mf.has_default) = true
    · simp only [hc, if_pos]
      exact getA_setA_ne doc k F mf.filldefault hk
    · simp only [hc, Bool.false_eq_true, if_false]
  | sub s =>
    simp only [fill_defaults_item] at h
    cases hg : getA doc k with
    | none =>
      simp only [hg] at h
      cases hf : fill_defaults s [] with
      | error e => simp only [hf] at h; simp at h
      | ok d' =>
        simp only [hf] at h
        simp at h
        subst h
        exact getA_setA_ne doc k F _ hk
    | some v =>
      simp only [hg] at h
      cases v with
      | vDict d =>
        cases hf : fill_defaults s d with
        | error e => simp only [hf] at h; simp at h
        | ok d' =>
          simp only [hf] at h
          simp at h
          subst h
          exact getA_setA_ne doc k F _ hk
      | vNone => simp at h; by_cases he : s.isEmpty <;> simp [he] at h <;> simp [h]
      | vBool b => simp at h; by_cases he : s.isEmpty <;> simp [he] at h <;> simp [h]
      | vInt n => simp at h; by_cases he : s.isEmpty <;> simp [he] at h <;> simp [h]
      | vFloat m => simp at h; by_cases he : s.isEmpty <;> simp [he] at h <;> simp [h]
      | vStr s2 => simp at h; by_cases he : s.isEmpty <;> simp [he] at h <;> simp [h]
      | vObjId i => simp at h; by_cases he : s.isEmpty <;> simp [he] at h <;> simp [h]
      | vList l => simp at h; by_cases he : s.isEmpty <;> simp [he] at h <;> simp [h]
      | vDocInst t i => simp at h; by_cases he : s.isEmpty <;> simp [he] at h <;> simp [h]
  | lst fs =>
    simp only [fill_defaults_item, Except.ok.injEq] at h
    subst h
    by_cases hc : memA doc k = true
    · simp only [hc, if_pos]
    · simp only [hc, if_neg, if_false]
      exact getA_setA_ne doc k F _ hk

theorem fill_defaults_other :
    ∀ (schema : Schema) (doc doc' : Doc) (F : String),
      (∀ p ∈ schema, p.1 ≠ F) →
      fill_defaults schema doc = .ok doc' →
      getA doc' F = getA doc F
  | [], doc, doc', F, _, h => by
    simp only [fill_defaults, Except.ok.injEq] at h
    subst h; rfl
  | (k0, it0) :: rest, doc, doc', F, hall, h => by
    simp only [fill_defaults] at h
    cases hi : fill_defaults_item k0 it0 doc with
    | error e => simp only [hi] at h; simp at h
    | ok doc2 =>
      simp only [hi] at h
      have h0 : k0 ≠ F := hall (k0, it0) (List.mem_cons_self _ _)
      rw [fill_defaults_other rest doc2 doc' F
        (fun p hp => hall p (List.mem_cons_of_mem _ hp)) h]
      exact fill_defaults_item_other k0 it0 doc doc2 F h0 hi

theorem fill_defaults_fills :
    ∀ (schema : Schema) (doc doc' : Doc) (F : String) (mf : MongoField)
      (d : Val),
      (schema.map Prod.fst).Nodup →
      getA schema F = some (.fld mf) →
      mf.default = some d → mf.default_func = none →
      memA doc F = false →
      fill_defaults schema doc = .ok doc' →
      getA doc' F = some d
  | [], _, _, F, mf, d, _, hget, _, _, _, _ => by simp [getA] at hget
  | (k0, it0) :: rest, doc, doc', F, mf, d, hnd, hget, hd, hdf, hmem, h => by
    simp only [fill_defaults] at h
    cases hi : fill_defaults_item k0 it0 doc with
    | error e => simp only [hi] at h; simp at h
    | ok doc2 =>
      simp only [hi] at h
      simp only [List.map_cons, List.nodup_cons] at hnd
      by_cases h0 : k0 = F
      · subst h0
        have hit : it0 = SchemaItem.fld mf := by
          simp [getA] at hget
          exact hget
        subst hit
        have hhd : mf.has_default = true := by
          simp [MongoField.has_default, hd]
        have hfd : mf.filldefault = d := by
          simp [MongoField.filldefault, hdf, hd]
        simp only [fill_defaults_item, hmem, hhd, Bool.not_false,
          Bool.and_self, if_pos, Except.ok.injEq] at hi
        have hrest : ∀ p ∈ rest, p.1 ≠ k0 := by
          intro p hp he
          exact hnd.1 (he ▸ List.mem_map_of_mem Prod.fst hp)
        rw [fill_defaults_other rest doc2 doc' k0 hrest h, ← hi, hfd]
        exact getA_setA_self doc k0 d
      · have hget' : getA rest F = some (.fld mf) := by
          simp only [getA, h0, if_false] at hget
          exact hget
        have hmem2 : memA doc2 F = false := by
          unfold memA
          rw [fill_defaults_item_other k0 it0 doc doc2 F h0 hi]
          exact hmem
        exact fill_defaults_fills rest doc2 doc' F mf d hnd.2 hget' hd hdf
          hmem2 h

theorem fix_int_float_preserves :
    ∀ (schema : Schema) (doc : Doc) (F : String) (d : Val),
      getA doc F = some d → (∀ m : Int, d ≠ .vFloat m) →
      getA (fix_int_float schema doc) F = some d
  | [], doc, F, d, hg, _ => hg
  | (k0, it0) :: rest, doc, F, d, hg, hnf => by
    cases it0 with
    | fld mf =>
      simp only [fix_int_float]
      by_cases ht : mf.type = .tInt
      · simp only [ht, if_pos]
        cases hgk : getA doc k0 with
        | none => exact fix_int_float_preserves rest doc F d hg hnf
        | some v =>
          cases v with
          | vFloat m =>
            have hk0F : k0 ≠ F := by
              intro he
              subst he
              rw [hg] at hgk
              injection hgk with hv
              exact hnf m hv
            apply fix_int_float_preserves rest _ F d _ hnf
            rw [getA_setA_ne doc k0 F _ hk0F]
            exact hg
          | vNone => exact fix_int_float_preserves rest doc F d hg hnf
          | vBool b => exact fix_int_float_preserves rest doc F d hg hnf
          | vInt n => exact fix_int_float_preserves rest doc F d hg hnf
          | vStr s => exact fix_int_float_preserves rest doc F d hg hnf
          | vObjId i => exact fix_int_float_preserves rest doc F d hg hnf
          | vList l => exact fix_int_float_preserves rest doc F d hg hnf
          | vDict dd => exact fix_int_float_preserves rest doc F d hg hnf
          | vDocInst t i => exact fix_int_float_preserves rest doc F d hg hnf
      · simp only [ht, if_false]
        exact fix_int_float_preserves rest doc F d hg hnf
    | sub s =>
      simp only [fix_int_float]
      exact fix_int_float_preserves rest doc F d hg hnf
    | lst fs =>
      simp only [fix_int_float]
      exact fix_int_float_preserves rest doc F d hg hnf

theorem getA_unfix_entries :
    ∀ (doc : Doc) (F : String),
      unfix_single_dict_key F = F →
      (∀ p ∈ doc, unfix_single_dict_key p.1 = F → p.1 = F) →
      getA (unfix_dict_keys_entries doc) F = (getA doc F).map unfix_dict_keys
  | [], F, _, _ => rfl
  | (k, v) :: rest, F, hF, halias => by
    simp only [unfix_dict_keys_entries]
    by_cases hk : k = F
    · subst hk
      simp [getA, hF]
    · have hne : unfix_single_dict_key k ≠ F := by
        intro he
        exact hk (halias (k, v) (List.mem_cons_self _ _) he)
      simp only [getA, hne, if_false, hk]
      exact getA_unfix_entries rest F hF
        (fun p hp => halias p (List.mem_cons_of_mem _ hp))

theorem mem_memA {α β : Type} [DecidableEq α] :
    ∀ (d : List (α × β)) (k : α) (v : β), (k, v) ∈ d → memA d k = true
  | [], _, _, h => absurd h (List.not_mem_nil _)
  | (k0, v0) :: rest, k, v, h => by
    unfold memA getA
    by_cases h0 : k0 = k
    · simp [h0]
    · simp only [h0, if_false]
      rcases List.mem_cons.mp h with he | he
      · injection he with he1 he2
        exact absurd he1.symm h0
      · exact mem_memA rest k v he

theorem memA_cons {α β : Type} [DecidableEq α] (k0 : α) (v0 : β)
    (rest : List (α × β)) (k : α) :
    memA ((k0, v0) :: rest) k = true ↔ k0 = k ∨ memA rest k = true := by
  unfold memA
  by_cases h : k0 = k <;> simp [getA, h]

theorem fill_defaults_item_keys (k0 : String) (it : SchemaItem)
    (doc doc2 : Doc) (k : String) (h : fill_defaults_item k0 it doc = .ok doc2)
    (hm : memA doc2 k = true) : memA doc k = true ∨ k = k0 := by
  by_cases hk : k = k0
  · exact Or.inr hk
  · left
    unfold memA at hm ⊢
    rw [← fill_defaults_item_other k0 it doc doc2 k (fun he => hk he.symm) h]
    exact hm

theorem fill_defaults_keys :
    ∀ (schema : Schema) (doc doc' : Doc) (k : String),
      fill_defaults schema doc = .ok doc' → memA doc' k = true →
      memA doc k = true ∨ memA schema k = true
  | [], doc, doc', k, h, hm => by
    simp only [fill_defaults, Except.ok.injEq] at h
    subst h
    exact Or.inl hm
  | (k0, it0) :: rest, doc, doc', k, h, hm => by
    simp only [fill_defaults] at h
    cases hi : fill_defaults_item k0 it0 doc with
    | error e => simp only [hi] at h; simp at h
    | ok doc2 =>
      simp only [hi] at h
      rcases fill_defaults_keys rest doc2 doc' k h hm with h2 | h2
      · rcases fill_defaults_item_keys k0 it0 doc doc2 k hi h2 with h3 | h3
        · exact Or.inl h3
        · exact Or.inr ((memA_cons k0 it0 rest k).mpr (Or.inl h3.symm))
      · exact Or.inr ((memA_cons k0 it0 rest k).mpr (Or.inr h2))

theorem fix_int_float_keys :
    ∀ (schema : Schema) (doc : Doc) (k : String),
      memA (fix_int_float schema doc) k = true → memA doc k = true
  | [], doc, k, h => h
  | (k0, it0) :: rest, doc, k, h => by
    cases it0 with
    | fld mf =>
      simp only [fix_int_float] at h
      by_cases ht : mf.type = .tInt
      · simp only [ht, if_pos] at h
        cases hgk : getA doc k0 with
        | none =>
          simp only [hgk] at h
          exact fix_int_float_keys rest doc k h
        | some v =>
          simp only [hgk] at h
          cases v with
          | vFloat m =>
            have h2 := fix_int_float_keys rest _ k h
            rcases memA_setA doc k0 k _ h2 with h3 | h3
            · exact h3
            · subst h3
              simp [memA, hgk]
          | vNone => exact fix_int_float_keys rest doc k h
          | vBool b => exact fix_int_float_keys rest doc k h
          | vInt n => exact fix_int_float_keys rest doc k h
          | vStr s => exact fix_int_float_keys rest doc k h
          | vObjId i => exact fix_int_float_keys rest doc k h
          | vList l => exact fix_int_float_keys rest doc k h
          | vDict dd => exact fix_int_float_keys rest doc k h
          | vDocInst t i => exact fix_int_float_keys rest doc k h
      · simp only [ht, if_false] at h
        exact fix_int_float_keys rest doc k h
    | sub s =>
      simp only [fix_int_float] at h
      exact fix_int_float_keys rest doc k h
    | lst fs =>
      simp only [fix_int_float] at h
      exact fix_int_float_keys rest doc k h

theorem add_to_cache_ok_inv (st : DBState) (w : Wrapper) (st' : DBState)
    (h : add_to_cache st w = .ok st') :
    st' = { st with cache := setA st.cache w.idVal w } := by
  unfold add_to_cache at h
  by_cases hc : st.cache_enabled = true
  · simp only [hc, Bool.not_true, Bool.false_eq_true, if_false,
      Except.ok.injEq] at h
    rw [show ({ st with cache := setA st.cache w.idVal w } : DBState) =
      ⟨st.db, setA st.cache w.idVal w, st.cache_enabled, st.fresh,
        st.next_tag⟩ from rfl, hc]
    exact h.symm
  · have hc' : st.cache_enabled = false := by
      cases hcv : st.cache_enabled
      · rfl
      · exact absurd hcv hc
    simp [hc'] at h

theorem get_db_unchanged (schema : Schema) (q : Doc) (st : DBState) :
    ((get schema q st).2).db = st.db := by
  unfold get
  split
  · rfl
  · split
    · rfl
    · split
      · rfl
      · split
        · split
          · rfl
          · split
            · rfl
            · split
              · rfl
              · split
                · rename_i st2 heq
                  rw [add_to_cache_ok_inv _ _ _ heq]
                · rfl
        · split
          · rfl
          · rfl

theorem fromdb_doc_fills (schema : Schema) (F : String) (mf : MongoField)
    (d : Val) (r rec' : Doc)
    (hnd : (schema.map Prod.fst).Nodup)
    (hget : getA schema F = some (.fld mf))
    (hd : mf.default = some d) (hdf : mf.default_func = none)
    (hnf : ∀ m : Int, d ≠ .vFloat m)
    (hud : unfix_dict_keys d = d)
    (hFid : F ≠ "id") (hF2id : F ≠ "_id")
    (hFu : unfix_single_dict_key F = F)
    (hralias : ∀ p ∈ r, p.1 = "_id" ∨ unfix_single_dict_key p.1 ≠ F)
    (hsalias : ∀ p ∈ schema, p.1 = F ∨ unfix_single_dict_key p.1 ≠ F)
    (hmem : memA r F = false)
    (h : fromdb_doc schema r = .ok rec') :
    getA rec' F = some d := by
  unfold fromdb_doc at h
  cases hfix : fromdb_fix_id r with
  | error e => simp only [hfix] at h; simp at h
  | ok doc1 =>
    simp only [hfix] at h
    cases hfill : fill_defaults schema doc1 with
    | error e => simp only [hfill] at h; simp at h
    | ok doc2 =>
      simp only [hfill, Except.ok.injEq] at h
      subst h
      unfold fromdb_fix_id at hfix
      cases hgid : getA r "_id" with
      | none => simp only [hgid] at hfix; simp at hfix
      | some idv =>
        simp only [hgid, Except.ok.injEq] at hfix
        subst hfix
        have hm1 : memA (delA (setA r "id" idv) "_id") F = false := by
          unfold memA
          rw [getA_delA_ne _ "_id" F (fun he => hF2id he.symm)]
          rw [getA_setA_ne _ "id" F _ (fun he => hFid he.symm)]
          exact hmem
        have hfill2 : getA doc2 F = some d :=
          fill_defaults_fills schema _ doc2 F mf d hnd hget hd hdf hm1 hfill
        have hfloat : getA (fix_int_float schema doc2) F = some d :=
          fix_int_float_preserves schema doc2 F d hfill2 hnf
        have halias3 : ∀ p ∈ fix_int_float schema doc2,
            unfix_single_dict_key p.1 = F → p.1 = F := by
          intro p hp hu
          obtain ⟨k, v⟩ := p
          have hm3 : memA (fix_int_float schema doc2) k = true :=
            mem_memA _ k v hp
          have hm2 : memA doc2 k = true := fix_int_float_keys schema doc2 k hm3
          rcases fill_defaults_keys schema _ doc2 k hfill hm2 with hh | hh
          · have hset : memA (setA r "id" idv) k = true :=
              memA_delA _ "_id" k hh
            rcases memA_setA r "id" k idv hset with hr | hr
            · unfold memA at hr
              cases hgv : getA r k with
              | none => rw [hgv] at hr; simp at hr
              | some v2 =>
                rcases hralias (k, v2) (getA_some_mem r k v2 hgv) with h2 | h2
                · rw [h2] at hu
                  rw [show unfix_single_dict_key "_id" = "_id" from rfl] at hu
                  exact absurd hu.symm hF2id
                · exact absurd hu h2
            · subst hr
              rw [show unfix_single_dict_key "id" = "id" from rfl] at hu
              exact absurd hu.symm hFid
          · unfold memA at hh
            cases hgs : getA schema k with
            | none => rw [hgs] at hh; simp at hh
            | some it =>
              rcases hsalias (k, it) (getA_some_mem schema k it hgs) with h2 | h2
              · exact h2
              · exact absurd hu h2
        have hfin := getA_unfix_entries (fix_int_float schema doc2) F hFu halias3
        rw [hfloat] at hfin
        simp only [Option.map_some'] at hfin
        rw [hud] at hfin
        exact hfin

/-- C6 (amended): Schema-migration defaulting holds for constant defaults
only.  Reading never writes to the stored collection (first conjunct); a
cache-disabled read wraps exactly the record normalized by the _fromdb path
(second conjunct); and for every stored record lacking a field F whose
descriptor carries a constant default (has_default true, no factory, under
key-hygiene side conditions: distinct schema keys, F distinct from the id
keys, no other key decoding onto F, a non-float default stable under key
decoding), the normalized record carries F bound to that constant default
(third conjunct).  A field carrying only a default factory is not filled on
read, because has_default inspects only the constant default; the
counterexample theorem exhibits this. -/
theorem claim_C6_schema_migration_defaulting :
    (∀ (schema : Schema) (q : Doc) (st : DBState),
      ((get schema q st).2).db = st.db) ∧
    (∀ (schema : Schema) (x : Nat) (st : DBState) (w : Wrapper)
      (st' : DBState),
      st.cache_enabled = false →
      get schema [("id", Val.vObjId x)] st = (.ok (some w), st') →
      ∃ r, find_one st.db [("_id", Val.vObjId x)] = some r ∧
        fromdb_doc schema r = .ok w.doc) ∧
    (∀ (schema : Schema) (F : String) (mf : MongoField) (d : Val)
      (r rec' : Doc),
      (schema.map Prod.fst).Nodup →
      getA schema F = some (.fld mf) →
      mf.default = some d → mf.default_func = none →
      (∀ m : Int, d ≠ .vFloat m) →
      unfix_dict_keys d = d →
      F ≠ "id" → F ≠ "_id" →
      unfix_single_dict_key F = F →
      (∀ p ∈ r, p.1 = "_id" ∨ unfix_single_dict_key p.1 ≠ F) →
      (∀ p ∈ schema, p.1 = F ∨ unfix_single_dict_key p.1 ≠ F) →
      memA r F = false →
      fromdb_doc schema r = .ok rec' →
      getA rec' F = some d) := by
  refine ⟨get_db_unchanged, ?_, fromdb_doc_fills⟩
  intro schema x st w st' hc h
  obtain ⟨r, doc', hf, hd, hw, _⟩ := get_disabled_inversion schema x st w st' hc h
  exact ⟨r, hf, by rw [hw]; exact hd⟩

/-- C6 (counterexample): a stored record lacking a field whose descriptor
carries only a default factory (default_func set, no constant default) is
not filled on read — the claim that factory defaults are filled is false.
The lang field carries default_func producing the string gen, the stored
record has no lang, and the wrapper read back through get has no lang key
at all. -/
theorem claim_C6_defaulting_counterexample :
    get
      [("id", SchemaItem.fld ⟨.tObjectId, none, some (.vObjId 0), false, none, none⟩),
       ("lang", SchemaItem.fld ⟨.tStr, none, some (.vStr "gen"), false, none, none⟩)]
      [("id", Val.vObjId 5)]
      ⟨[[("_id", Val.vObjId 5)]], [], false, 6, 0⟩ =
      (.ok (some ⟨0, [("id", Val.vObjId 5)]⟩),
       ⟨[[("_id", Val.vObjId 5)]], [], false, 6, 1⟩) ∧
    getA [("id", Val.vObjId 5)] "lang" = none :=
  ⟨rfl, rfl⟩

theorem claim_C6_schema_migration_defaulting_witness :
    fromdb_doc
      [("id", SchemaItem.fld ⟨.tObjectId, none, some (.vObjId 0), false, none, none⟩),
       ("lang", SchemaItem.fld ⟨.tStr, some (.vStr "en"), none, false, none, none⟩)]
      [("_id", Val.vObjId 5)] =
      .ok [("id", Val.vObjId 5), ("lang", Val.vStr "en")] ∧
    getA [("id", Val.vObjId 5), ("lang", Val.vStr "en")] "lang" =
      some (Val.vStr "en") ∧
    ((get
      [("id", SchemaItem.fld ⟨.tObjectId, none, some (.vObjId 0), false, none, none⟩),
       ("lang", SchemaItem.fld ⟨.tStr, some (.vStr "en"), none, false, none, none⟩)]
      [("id", Val.vObjId 5)]
      ⟨[[("_id", Val.vObjId 5)]], [], false, 6, 0⟩).2).db =
      [[("_id", Val.vObjId 5)]] :=
  ⟨rfl,
   claim_C6_schema_migration_defaulting.2.2
     [("id", SchemaItem.fld ⟨.tObjectId, none, some (.vObjId 0), false, none, none⟩),
      ("lang", SchemaItem.fld ⟨.tStr, some (.vStr "en"), none, false, none, none⟩)]
     "lang" ⟨.tStr, some (.vStr "en"), none, false, none, none⟩ (.vStr "en")
     [("_id", Val.vObjId 5)] [("id", Val.vObjId 5), ("lang", Val.vStr "en")]
     (by decide) rfl rfl rfl (fun m => by simp) rfl (by decide) (by decide) rfl
     (by decide) (by decide) rfl rfl,
   claim_C6_schema_migration_defaulting.1
     [("id", SchemaItem.fld ⟨.tObjectId, none, some (.vObjId 0), false, none, none⟩),
      ("lang", SchemaItem.fld ⟨.tStr, some (.vStr "en"), none, false, none, none⟩)]
     [("id", Val.vObjId 5)]
     ⟨[[("_id", Val.vObjId 5)]], [], false, 6, 0⟩⟩

theorem find_one_mem :
    ∀ (db : List Doc) (q : Doc) (r : Doc), find_one db q = some r → r ∈ db
  | [], _, _, h => by simp [find_one] at h
  | r0 :: rest, q, r, h => by
    unfold find_one at h
    by_cases hm : doc_matches r0 q = true
    · simp only [hm, if_pos, Option.some.injEq] at h
      subst h
      exact List.mem_cons_self _ _
    · simp only [hm, Bool.false_eq_true, if_false] at h
      exact List.mem_cons_of_mem _ (find_one_mem rest q r h)

theorem find_one_matches :
    ∀ (db : List Doc) (q : Doc) (r : Doc), find_one db q = some r →
      doc_matches r q = true
  | [], _, _, h => by simp [find_one] at h
  | r0 :: rest, q, r, h => by
    unfold find_one at h
    by_cases hm : doc_matches r0 q = true
    · simp only [hm, if_pos, Option.some.injEq] at h
      subst h
      exact hm
    · simp only [hm, Bool.false_eq_true, if_false] at h
      exact find_one_matches rest q r h

theorem fill_defaults_preserves_present :
    ∀ (schema : Schema) (doc doc' : Doc) (k : String) (v : Val),
      getA doc k = some v → (∀ dd, v ≠ .vDict dd) →
      fill_defaults schema doc = .ok doc' →
      getA doc' k = some v
  | [], doc, doc', k, v, hg, _, h => by
    simp only [fill_defaults, Except.ok.injEq] at h
    subst h
    exact hg
  | (k0, it0) :: rest, doc, doc', k, v, hg, hnd, h => by
    simp only [fill_defaults] at h
    cases hi : fill_defaults_item k0 it0 doc with
    | error e => simp only [hi] at h; simp at h
    | ok doc2 =>
      simp only [hi] at h
      by_cases h0 : k0 = k
      · subst h0
        have hdoc2 : doc2 = doc := by
          cases it0 with
          | fld mf =>
            have hm : memA doc k0 = true := by simp [memA, hg]
            simp only [fill_defaults_item, hm, Bool.not_true,
              Bool.false_and, Bool.false_eq_true, if_false,
              Except.ok.injEq] at hi
            exact hi.symm
          | sub s =>
            simp only [fill_defaults_item, hg] at hi
            cases v with
            | vDict dd => exact absurd rfl (hnd dd)
            | vNone =>
              by_cases he : s.isEmpty <;> simp [he] at hi <;> simp [hi]
            | vBool b =>
              by_cases he : s.isEmpty <;> simp [he] at hi <;> simp [hi]
            | vInt n =>
              by_cases he : s.isEmpty <;> simp [he] at hi <;> simp [hi]
            | vFloat m =>
              by_cases he : s.isEmpty <;> simp [he] at hi <;> simp [hi]
            | vStr s2 =>
              by_cases he : s.isEmpty <;> simp [he] at hi <;> simp [hi]
            | vObjId i =>
              by_cases he : s.isEmpty <;> simp [he] at hi <;> simp [hi]
            | vList l =>
              by_cases he : s.isEmpty <;> simp [he] at hi <;> simp [hi]
            | vDocInst t i =>
              by_cases he : s.isEmpty <;> simp [he] at hi <;> simp [hi]
          | lst fs =>
            have hm : memA doc k0 = true := by simp [memA, hg]
            simp only [fill_defaults_item, hm, if_pos, Except.ok.injEq] at hi
            exact hi.symm
        rw [hdoc2] at h
        exact fill_defaults_preserves_present rest doc doc' k0 v hg hnd h
      · have hg2 : getA doc2 k = some v := by
          rw [fill_defaults_item_other k0 it0 doc doc2 k h0 hi]
          exact hg
        exact fill_defaults_preserves_present rest doc2 doc' k v hg2 hnd h

theorem fromdb_doc_id (schema : Schema) (r doc' : Doc) (x : Nat)
    (hgid : getA r "_id" = some (.vObjId x))
    (hralias : ∀ p ∈ r, p.1 = "_id" ∨ unfix_single_dict_key p.1 ≠ "id")
    (hsalias : ∀ p ∈ schema, unfix_single_dict_key p.1 = "id" → p.1 = "id")
    (h : fromdb_doc schema r = .ok doc') :
    getA doc' "id" = some (.vObjId x) := by
  unfold fromdb_doc at h
  unfold fromdb_fix_id at h
  simp only [hgid] at h
  cases hfill : fill_defaults schema (delA (setA r "id" (.vObjId x)) "_id") with
  | error e => simp only [hfill] at h; simp at h
  | ok doc2 =>
    simp only [hfill, Except.ok.injEq] at h
    subst h
    have hg1 : getA (delA (setA r "id" (.vObjId x)) "_id") "id" =
        some (.vObjId x) := by
      rw [getA_delA_ne _ "_id" "id" (by decide)]
      exact getA_setA_self r "id" (.vObjId x)
    have hg2 : getA doc2 "id" = some (.vObjId x) :=
      fill_defaults_preserves_present schema _ doc2 "id" (.vObjId x) hg1
        (fun dd => by simp) hfill
    have hg3 : getA (fix_int_float schema doc2) "id" = some (.vObjId x) :=
      fix_int_float_preserves schema doc2 "id" (.vObjId x) hg2
        (fun m => by simp)
    have halias3 : ∀ p ∈ fix_int_float schema doc2,
        unfix_single_dict_key p.1 = "id" → p.1 = "id" := by
      intro p hp hu
      obtain ⟨k, v⟩ := p
      have hm3 : memA (fix_int_float schema doc2) k = true := mem_memA _ k v hp
      have hm2 : memA doc2 k = true := fix_int_float_keys schema doc2 k hm3
      rcases fill_defaults_keys schema _ doc2 k hfill hm2 with hh | hh
      · have hset : memA (setA r "id" (.vObjId x)) k = true :=
          memA_delA _ "_id" k hh
        rcases memA_setA r "id" k _ hset with hr | hr
        · unfold memA at hr
          cases hgv : getA r k with
          | none => rw [hgv] at hr; simp at hr
          | some v2 =>
            rcases hralias (k, v2) (getA_some_mem r k v2 hgv) with h2 | h2
            · rw [h2] at hu
              rw [show unfix_single_dict_key "_id" = "_id" from rfl] at hu
              exact absurd hu (by decide)
            · exact absurd hu h2
        · exact hr
      · unfold memA at hh
        cases hgs : getA schema k with
        | none => rw [hgs] at hh; simp at hh
        | some it => exact hsalias (k, it) (getA_some_mem schema k it hgs) hu
    have hfin := getA_unfix_entries (fix_int_float schema doc2) "id" rfl halias3
    rw [hg3] at hfin
    simp only [Option.map_some'] at hfin
    exact hfin

theorem get_cache_hit (schema : Schema) (q : Doc) (st : DBState) (idv : Val)
    (w : Wrapper) (h1 : st.cache_enabled = true)
    (h2 : getA (mongodoc_to_id q) "id" = some idv)
    (h3 : getA st.cache idv = some w) :
    get schema q st = (.ok (some w), st) := by
  simp [get, h1, h2, h3]

theorem writedoc_state_preserved (schema : Schema) (doc : Doc)
    (mode : String) (st : DBState) :
    ((writedoc schema doc mode st).2).cache = st.cache ∧
    ((writedoc schema doc mode st).2).cache_enabled = st.cache_enabled ∧
    ((writedoc schema doc mode st).2).next_tag = st.next_tag := by
  unfold writedoc
  dsimp only
  split
  · exact ⟨rfl, rfl, rfl⟩
  · split
    · exact ⟨rfl, rfl, rfl⟩
    · split
      · split
        · exact ⟨rfl, rfl, rfl⟩
        · exact ⟨rfl, rfl, rfl⟩
      · split
        · split
          · exact ⟨rfl, rfl, rfl⟩
          · split
            · exact ⟨rfl, rfl, rfl⟩
            · exact ⟨rfl, rfl, rfl⟩
        · exact ⟨rfl, rfl, rfl⟩

/-- C1: Identity invariant.  On a cache-enabled type (and for a well-formed
state: every stored document carries an ObjectId under the storage id key
and no stored or schema key decodes onto the logical id key), a successful
get(id=x) leaves the returned wrapper registered in the identity cache
under x — whether it was served from the cache, found already cached under
the storage id, or freshly constructed and added — so a second get(id=x)
in the same cache epoch is answered from the identity cache with the very
same wrapper instance and without changing the state.  The second conjunct
is the create half of the registration guarantee: every successful create
on a cache-enabled type registers the returned wrapper in the cache under
its id attribute. -/
theorem claim_C1_identity_invariant :
    (∀ (schema : Schema) (x : Nat) (st : DBState) (w : Wrapper)
      (st1 : DBState),
      st.cache_enabled = true →
      (∀ p ∈ schema, unfix_single_dict_key p.1 = "id" → p.1 = "id") →
      (∀ r ∈ st.db, (∃ i, getA r "_id" = some (.vObjId i)) ∧
        (∀ p ∈ r, p.1 = "_id" ∨ unfix_single_dict_key p.1 ≠ "id")) →
      get schema [("id", Val.vObjId x)] st = (.ok (some w), st1) →
      getA st1.cache (Val.vObjId x) = some w ∧
      get schema [("id", Val.vObjId x)] st1 = (.ok (some w), st1)) ∧
    (∀ (schema : Schema) (d : Doc) (st st2 : DBState) (w : Wrapper),
      st.cache_enabled = true →
      create schema d st = (.ok w, st2) →
      getA st2.cache w.idVal = some w) := by
  constructor
  · intro schema x st w st1 hc hs hdb h
    have hq : getA (mongodoc_to_id [("id", Val.vObjId x)]) "id" =
        some (Val.vObjId x) := rfl
    unfold get at h
    simp only [hq, hc, if_true] at h
    cases hcache : getA st.cache (Val.vObjId x) with
    | some w0 =>
      simp only [hcache, Prod.mk.injEq, Except.ok.injEq,
        Option.some.injEq] at h
      obtain ⟨hw, hst⟩ := h
      subst hw
      subst hst
      exact ⟨hcache, get_cache_hit schema _ st (Val.vObjId x) w0 hc hq hcache⟩
    | none =>
      have hmq : mongodoc_to_id [("id", Val.vObjId x)] =
        [("id", Val.vObjId x)] := rfl
      simp only [hmq, hcache, fordb_fix_id_idquery] at h
      cases hfind : find_one st.db [("_id", Val.vObjId x)] with
      | none => simp only [hfind] at h; simp at h
      | some r =>
        simp only [hfind] at h
        obtain ⟨⟨i, hgid⟩, hralias⟩ := hdb r (find_one_mem _ _ _ hfind)
        have hmatch := find_one_matches _ _ _ hfind
        have hix : i = x := by
          unfold doc_matches at hmatch
          simp [hgid] at hmatch
          exact hmatch
        rw [hix] at hgid
        simp only [hgid] at h
        simp only [hcache] at h
        cases hfrom : fromdb_doc schema r with
        | error e => simp only [hfrom] at h; simp at h
        | ok doc' =>
          simp only [hfrom] at h
          have hwid : getA doc' "id" = some (.vObjId x) :=
            fromdb_doc_id schema r doc' x hgid hralias hs hfrom
          have hidval : (⟨st.next_tag, doc'⟩ : Wrapper).idVal =
              Val.vObjId x := by
            simp [Wrapper.idVal, hwid]
          have hadd : add_to_cache ⟨st.db, st.cache, true, st.fresh,
                st.next_tag + 1⟩ ⟨st.next_tag, doc'⟩ =
              .ok ⟨st.db, setA st.cache (Val.vObjId x) ⟨st.next_tag, doc'⟩,
                true, st.fresh, st.next_tag + 1⟩ := by
            unfold add_to_cache
            simp [hidval]
          simp only [hadd] at h
          simp only [Prod.mk.injEq, Except.ok.injEq, Option.some.injEq] at h
          obtain ⟨hw, hst⟩ := h
          subst hw
          subst hst
          refine ⟨getA_setA_self st.cache (Val.vObjId x) _, ?_⟩
          exact get_cache_hit schema _ _ (Val.vObjId x) _ rfl hq
            (getA_setA_self st.cache (Val.vObjId x) _)
  · intro schema d st st2 w hc hcr
    unfold create at hcr
    cases h1 : fill_defaults schema d with
    | error e => simp only [h1] at hcr; simp at hcr
    | ok d1 =>
      simp only [h1] at hcr
      cases h2 : basic_schema_validation schema d1 with
      | error e => simp only [h2] at hcr; simp at hcr
      | ok u =>
        cases u
        simp only [h2] at hcr
        cases h3 : fix_references schema d1 with
        | error e => simp only [h3] at hcr; simp at hcr
        | ok d2 =>
          simp only [h3] at hcr
          cases h4 : writedoc schema d2 "insert" st with
          | mk res st' =>
            have hpres := writedoc_state_preserved schema d2 "insert" st
            rw [h4] at hpres
            cases res with
            | error e => simp only [h4] at hcr; simp at hcr
            | ok doc3 =>
              simp only [h4] at hcr
              have hce : st'.cache_enabled = true := hpres.2.1.trans hc
              simp only [hce, if_true] at hcr
              cases hadd : add_to_cache ⟨st'.db, st'.cache, true, st'.fresh,
                  st'.next_tag + 1⟩ ⟨st'.next_tag, doc3⟩ with
              | error e => simp only [hadd] at hcr; simp at hcr
              | ok st3 =>
                simp only [hadd] at hcr
                simp only [Prod.mk.injEq, Except.ok.injEq] at hcr
                obtain ⟨hw, hst⟩ := hcr
                subst hw
                subst hst
                rw [add_to_cache_ok_inv _ _ _ hadd]
                exact getA_setA_self _ _ _

theorem claim_C1_identity_invariant_witness :
    getA
      ((⟨[[("_id", Val.vObjId 5), ("username", Val.vStr "bob")]],
        [(Val.vObjId 5,
          ⟨0, [("username", Val.vStr "bob"), ("id", Val.vObjId 5)]⟩)],
        true, 6, 1⟩ : DBState)).cache (Val.vObjId 5) =
      some ⟨0, [("username", Val.vStr "bob"), ("id", Val.vObjId 5)]⟩ ∧
    get
      [("id", SchemaItem.fld ⟨.tObjectId, none, some (.vObjId 0), false, none, none⟩),
       ("username", SchemaItem.fld ⟨.tStr, none, none, true, none, none⟩)]
      [("id", Val.vObjId 5)]
      ⟨[[("_id", Val.vObjId 5), ("username", Val.vStr "bob")]],
        [(Val.vObjId 5,
          ⟨0, [("username", Val.vStr "bob"), ("id", Val.vObjId 5)]⟩)],
        true, 6, 1⟩ =
      (.ok (some ⟨0, [("username", Val.vStr "bob"), ("id", Val.vObjId 5)]⟩),
       ⟨[[("_id", Val.vObjId 5), ("username", Val.vStr "bob")]],
        [(Val.vObjId 5,
          ⟨0, [("username", Val.vStr "bob"), ("id", Val.vObjId 5)]⟩)],
        true, 6, 1⟩) :=
  claim_C1_identity_invariant.1
    [("id", SchemaItem.fld ⟨.tObjectId, none, some (.vObjId 0), false, none, none⟩),
     ("username", SchemaItem.fld ⟨.tStr, none, none, true, none, none⟩)]
    5
    ⟨[[("_id", Val.vObjId 5), ("username", Val.vStr "bob")]], [], true, 6, 0⟩
    ⟨0, [("username", Val.vStr "bob"), ("id", Val.vObjId 5)]⟩
    ⟨[[("_id", Val.vObjId 5), ("username", Val.vStr "bob")]],
      [(Val.vObjId 5,
        ⟨0, [("username", Val.vStr "bob"), ("id", Val.vObjId 5)]⟩)],
      true, 6, 1⟩
    rfl (by decide)
    (by
      intro r hr
      simp only [List.mem_singleton] at hr
      subst hr
      exact ⟨⟨5, rfl⟩, by decide⟩)
    rfl

end Mongoschema
